import Mathlib

/-!
# JILL buffered data writer: shallow embedding and verified properties

Embedding of `jill/dsp/buffered_data_writer.cc` (the buffered writer engine and
its consumer thread) together with the collaborators it drives: the framed ring
buffer, the data sink and the log transport.

* Shared variables of the engine (`_state`, `_xrun`, `_reset`, `_buffer`,
  `_logger_bound`) are the fields of `buffered_data_writer`.
* The sink is observed through the list of calls made on `_writer`.
* A run is a list of `action`s: calls of the public member functions made by
  arbitrary threads, and single statements executed by consumer threads.  The
  mutex `_lock` is modelled by the `holder` field: at most one consumer thread is
  inside the locked region of `buffered_data_writer::thread`, and the other
  threads are counted by the place where they are blocked.
* `jill/util/ringbuffer.hh` (`Ringbuffer<T>`, `Prebuffer<T>`) is embedded over a
  byte-level model of the JACK ring buffer it wraps; `sizeof(T)` is a parameter.
-/

namespace jill

/-- Engine state, the enumeration `state_t` used for `_state`. -/
inductive state_t where
  | Stopped
  | Running
  | Stopping
  deriving DecidableEq, Repr

/-- One framed record: origin timestamp, type tag, source identifier and payload
bytes (the payload length is the `size` argument of `push`). -/
structure data_block_t where
  time : Nat
  dtype : Nat
  id : String
  data : List Nat
  deriving DecidableEq, Repr

/-- Modelled from the spec: the class `block_ringbuffer` (header `block_ringbuffer.hh`
is not among the sources).  A fixed-capacity FIFO of complete records; `capacity` is
the byte capacity, `header` the byte size of the fixed record header, `blocks` the
unread records, oldest first. -/
structure block_ringbuffer where
  capacity : Nat
  header : Nat
  blocks : List data_block_t
  deriving DecidableEq, Repr

namespace block_ringbuffer

/-- Modelled from the spec: the framed size of a record is header + identifier +
payload. -/
def framed_size (header : Nat) (b : data_block_t) : Nat :=
  header + b.id.length + b.data.length

/-- Modelled from the spec: bytes occupied by unread records. -/
def read_space (rb : block_ringbuffer) : Nat :=
  (rb.blocks.map (framed_size rb.header)).sum

/-- Modelled from the spec: remaining free space in bytes. -/
def write_space (rb : block_ringbuffer) : Nat :=
  rb.capacity - rb.read_space

/-- Modelled from the spec: `size()` is the capacity. -/
def size (rb : block_ringbuffer) : Nat :=
  rb.capacity

/-- Modelled from the spec: `push` writes one complete record, or returns failure
without any write when the free space is smaller than the framed size.  The engine
tests the result with `== 0`; the boolean `false` is that failure value. -/
def push (rb : block_ringbuffer) (time dtype : Nat) (id : String) (data : List Nat) :
    block_ringbuffer × Bool :=
  if framed_size rb.header ⟨time, dtype, id, data⟩ ≤ rb.write_space then
    ({ rb with blocks := rb.blocks ++ [⟨time, dtype, id, data⟩] }, true)
  else
    (rb, false)

/-- Modelled from the spec: `peek_ahead` returns the oldest unread record without
removing it, or none when the buffer is empty. -/
def peek_ahead (rb : block_ringbuffer) : Option data_block_t :=
  rb.blocks.head?

/-- Modelled from the spec: `release` advances the read cursor past the record last
returned by `peek_ahead`. -/
def release (rb : block_ringbuffer) : block_ringbuffer :=
  { rb with blocks := rb.blocks.tail }

/-- Modelled from the spec: `resize` reallocates the backing store to (at least) the
requested capacity.  Its precondition is that no unread data is outstanding; with
unread data the behaviour is undefined, which is the result none. -/
def resize (rb : block_ringbuffer) (new_capacity : Nat) : Option block_ringbuffer :=
  if rb.blocks = [] then some { rb with capacity := new_capacity } else none

end block_ringbuffer

/-- The calls the engine makes on its `data_writer` sink (`_writer`). -/
inductive sink_call where
  | write (b : data_block_t)
  | flush
  | close_entry
  | xrun
  | log (timestamp source text : String)
  deriving DecidableEq, Repr

/-- Member variables of `buffered_data_writer` that the claims are about. -/
structure buffered_data_writer where
  _state : state_t
  _xrun : Bool
  _reset : Bool
  _buffer : block_ringbuffer
  _logger_bound : Bool
  deriving DecidableEq, Repr

namespace buffered_data_writer

/-- The constructor: `_state(Stopped)`, a new ring buffer of `buffer_size` bytes,
`_logger_bound(false)`.  The initialiser list does not mention `_xrun` and `_reset`;
their initial values are the parameters `xrun0` and `reset0`. -/
def construct (buffer_size header : Nat) (xrun0 reset0 : Bool) : buffered_data_writer :=
  { _state := state_t.Stopped
    _xrun := xrun0
    _reset := reset0
    _buffer := ⟨buffer_size, header, []⟩
    _logger_bound := false }

/-- The member `xrun()`: `__sync_bool_compare_and_swap(&_xrun, false, true)`. -/
def xrun (self : buffered_data_writer) : buffered_data_writer :=
  if self._xrun = false then { self with _xrun := true } else self

/-- The member `push(time, dtype, id, size, data)`. -/
def push (self : buffered_data_writer) (time dtype : Nat) (id : String) (data : List Nat) :
    buffered_data_writer :=
  if self._state ≠ state_t.Stopping then
    if (self._buffer.push time dtype id data).2 = false then
      xrun { self with _buffer := (self._buffer.push time dtype id data).1 }
    else
      { self with _buffer := (self._buffer.push time dtype id data).1 }
  else
    self

/-- The compare-and-swap of `stop()`:
`__sync_bool_compare_and_swap(&_state, Running, Stopping)`. -/
def stop_cas (self : buffered_data_writer) : buffered_data_writer :=
  if self._state = state_t.Running then { self with _state := state_t.Stopping } else self

/-- The member `reset()`. -/
def reset (self : buffered_data_writer) : buffered_data_writer :=
  if self._state = state_t.Running then
    (if self._reset = false then { self with _reset := true } else self)
  else
    self

/-- The member `request_buffer_size(bytes)`, executed while holding `_lock`; the
second component is the returned `_buffer->size()`.  The result is none when the call
of `resize` is outside that function's precondition (behaviour undefined). -/
def request_buffer_size (self : buffered_data_writer) (bytes : Nat) :
    Option (buffered_data_writer × Nat) :=
  if bytes > self._buffer.size then
    (self._buffer.resize bytes).map (fun rb => ({ self with _buffer := rb }, rb.size))
  else
    some (self, self._buffer.size)

/-- The member `bind_logger(server_name)`; `rc` is the result of `zmq_bind`. -/
def bind_logger (self : buffered_data_writer) (rc : Int) : buffered_data_writer :=
  if self._logger_bound then self
  else if rc < 0 then self
  else { self with _logger_bound := true }

/-- The constant `max_messages` of `write_messages`. -/
def max_messages : Nat := 100

/-- The inner loop `while (more)` of `write_messages`: receive the frames of one
message from the socket.  A frame is a string with its `ZMQ_RCVMORE` indication.  The
first component is none when `zmq_msg_recv` returned -1 (nothing to receive); the
second is what is left in the socket. -/
def recv_parts : List (String × Bool) → List String →
    Option (List String) × List (String × Bool)
  | [], _ => (none, [])
  | (part, more) :: rest, messages =>
    if more then recv_parts rest (messages ++ [part])
    else (some (messages ++ [part]), rest)

/-- The characters of a time in the undelimited ISO form `YYYYMMDDTHHMMSS`,
optionally followed by `.` and fractional digits. -/
def iso_form (cs : List Char) : Bool :=
  decide (15 ≤ cs.length) && (cs.take 8).all Char.isDigit &&
    decide ((cs.drop 8).head? = some 'T') && ((cs.drop 9).take 6).all Char.isDigit &&
    (decide (cs.length = 15) ||
      (decide ((cs.drop 15).head? = some '.') && decide (17 ≤ cs.length) &&
        (cs.drop 16).all Char.isDigit))

/-- Model of `boost::posix_time::from_iso_string` (Boost, not part of the
repository): a string in the undelimited ISO form denotes a time, represented here
by its text; on any other string the call throws, which is the result none. -/
def from_iso_string (s : String) : Option String :=
  if iso_form s.toList then some s else none

/-- The loop `for (int i = 0; i < max_messages; ++i)` of `write_messages`, with
`n` iterations left.  Returns the socket contents left, the sink calls made, and
whether the loop was left by the exception of `from_iso_string` (nothing in
`write_messages` catches it). -/
def write_messages_loop : Nat → List (String × Bool) → List sink_call →
    List (String × Bool) × List sink_call × Bool
  | 0, socket, calls => (socket, calls, false)
  | n + 1, socket, calls =>
    match recv_parts socket [] with
    | (none, rest) => (rest, calls, false)
    | (some messages, rest) =>
      if messages.length ≥ 3 then
        match from_iso_string (messages.getD 1 "") with
        | some timestamp =>
          write_messages_loop n rest
            (calls ++ [sink_call.log timestamp (messages.getD 0 "") (messages.getD 2 "")])
        | none => (rest, calls, true)
      else
        write_messages_loop n rest calls

/-- The member `write_messages()`: socket contents left, sink calls made, and whether
an exception left the function. -/
def write_messages (self : buffered_data_writer) (socket : List (String × Bool)) :
    List (String × Bool) × List sink_call × Bool :=
  if !self._logger_bound then (socket, [], false)
  else write_messages_loop max_messages socket []

end buffered_data_writer

/-- Program point of the consumer thread that holds `_lock` inside
`buffered_data_writer::thread`; each constructor is the statement executed next.
`hdr` is the local variable of that name (the record `peek_ahead` returned). -/
inductive pc_t where
  | set_running
  | clear_reset
  | clear_xrun
  | check_xrun
  | peek
  | messages
  | check_state
  | flush
  | cond_wait
  | write_reset (hdr : data_block_t)
  | write_data (hdr : data_block_t)
  | release (hdr : data_block_t)
  | close
  | unlock
  deriving DecidableEq, Repr

/-- The engine together with its environment.  `holder` is the consumer thread that
owns `_lock` (none: the mutex is free).  `created` counts threads blocked in
`pthread_mutex_lock` at the start of `thread`, `waiting` threads blocked in
`pthread_cond_wait`, `signalled` threads woken from the wait that have not yet
reacquired the mutex, `exiting` threads past `pthread_mutex_unlock` that have not yet
stored `Stopped`.  `pushed` and `xruns` are history variables: the records accepted by
the ring buffer and the number of calls of `xrun()`. -/
structure system where
  self : buffered_data_writer
  socket : List (String × Bool)
  sink : List sink_call
  holder : Option pc_t
  created : Nat
  waiting : Nat
  signalled : Nat
  exiting : Nat
  pushed : List data_block_t
  xruns : Nat
  deriving DecidableEq, Repr

namespace system

/-- A freshly constructed engine: no thread, nothing written, empty socket. -/
def construct (buffer_size header : Nat) (xrun0 reset0 : Bool) : system :=
  { self := buffered_data_writer.construct buffer_size header xrun0 reset0
    socket := []
    sink := []
    holder := none
    created := 0
    waiting := 0
    signalled := 0
    exiting := 0
    pushed := []
    xruns := 0 }

/-- A call of `push` by the producer, recording the history variables. -/
def push (s : system) (time dtype : Nat) (id : String) (data : List Nat) : system :=
  { s with
    self := s.self.push time dtype id data
    pushed :=
      if s.self._state ≠ state_t.Stopping ∧ (s.self._buffer.push time dtype id data).2 = true
      then s.pushed ++ [⟨time, dtype, id, data⟩] else s.pushed
    xruns :=
      if s.self._state ≠ state_t.Stopping ∧ (s.self._buffer.push time dtype id data).2 = false
      then s.xruns + 1 else s.xruns }

/-- A call of `xrun()`. -/
def xrun (s : system) : system :=
  { s with self := s.self.xrun, xruns := s.xruns + 1 }

/-- A call of `reset()`. -/
def reset (s : system) : system :=
  { s with self := s.self.reset }

/-- The member `data_ready()`: when `pthread_mutex_trylock` succeeds, signal the
condition variable, which wakes one thread blocked in `pthread_cond_wait` if there is
one. -/
def data_ready (s : system) : system :=
  if s.holder = none then
    (if 0 < s.waiting then
      { s with waiting := s.waiting - 1, signalled := s.signalled + 1 }
     else s)
  else s

/-- The member `stop()`: the compare-and-swap, then `data_ready()`. -/
def stop (s : system) : system :=
  data_ready { s with self := s.self.stop_cas }

/-- The member `start()`; `ret` is the value `pthread_create` returns (a thread
exists afterwards exactly when it is 0).  The second component is the thrown
`std::runtime_error`, if any. -/
def start (s : system) (ret : Int) : system × Except String Unit :=
  if s.self._state = state_t.Stopped then
    if ret ≠ 0 then (s, Except.error "Failed to start writer thread")
    else ({ s with created := s.created + 1 }, Except.ok ())
  else
    (s, Except.error "Tried to start already running writer thread")

/-- The member `write(data)`, first statement: the compare-and-swap on `_reset` and
the `close_entry` it guards. -/
def write_reset (s : system) (hdr : data_block_t) : system :=
  if s.self._reset = true then
    { s with self := { s.self with _reset := false }
             sink := s.sink ++ [sink_call.close_entry]
             holder := some (pc_t.write_data hdr) }
  else
    { s with holder := some (pc_t.write_data hdr) }

/-- Whether the statement at `pc` is left by an exception: the only source is
`from_iso_string` inside `write_messages`.  Nothing in `thread` catches it, so the
exception leaves the thread function and the process is terminated. -/
def throws (s : system) (pc : pc_t) : Bool :=
  match pc with
  | pc_t.messages => (s.self.write_messages s.socket).2.2
  | _ => false

/-- One statement of `buffered_data_writer::thread` (and of `write`, which it
calls), executed by the thread that holds `_lock` at program point `pc`, when no
exception leaves it. -/
def thread (s : system) (pc : pc_t) : system :=
  match pc with
  | pc_t.set_running =>
    { s with self := { s.self with _state := state_t.Running }
             holder := some pc_t.clear_reset }
  | pc_t.clear_reset =>
    { s with self := { s.self with _reset := false }, holder := some pc_t.clear_xrun }
  | pc_t.clear_xrun =>
    { s with self := { s.self with _xrun := false }, holder := some pc_t.check_xrun }
  | pc_t.check_xrun =>
    if s.self._xrun = true then
      { s with self := { s.self with _xrun := false }
               sink := s.sink ++ [sink_call.xrun]
               holder := some pc_t.peek }
    else
      { s with holder := some pc_t.peek }
  | pc_t.peek =>
    match s.self._buffer.peek_ahead with
    | none => { s with holder := some pc_t.messages }
    | some hdr => { s with holder := some (pc_t.write_reset hdr) }
  | pc_t.messages =>
    { s with socket := (s.self.write_messages s.socket).1
             sink := s.sink ++ (s.self.write_messages s.socket).2.1
             holder := some pc_t.check_state }
  | pc_t.check_state =>
    if s.self._state = state_t.Stopping then { s with holder := some pc_t.close }
    else { s with holder := some pc_t.flush }
  | pc_t.flush =>
    { s with sink := s.sink ++ [sink_call.flush], holder := some pc_t.cond_wait }
  | pc_t.cond_wait =>
    { s with holder := none, waiting := s.waiting + 1 }
  | pc_t.write_reset hdr => write_reset s hdr
  | pc_t.write_data hdr =>
    { s with sink := s.sink ++ [sink_call.write hdr], holder := some (pc_t.release hdr) }
  | pc_t.release _ =>
    { s with self := { s.self with _buffer := s.self._buffer.release }
             holder := some pc_t.check_xrun }
  | pc_t.close =>
    { s with sink := s.sink ++ [sink_call.close_entry], holder := some pc_t.unlock }
  | pc_t.unlock =>
    { s with holder := none, exiting := s.exiting + 1 }

end system

/-- What can happen next in a run.  The first block are calls of member functions
from arbitrary threads; `send_log` is a message arriving on the log socket; the last
block are moves of consumer threads: `lock` (a created thread acquires `_lock`),
`step` (the holder executes its next statement), `wake` (a waiting thread wakes
spuriously), `relock` (a woken thread reacquires `_lock` and returns from
`pthread_cond_wait`), `store_stopped` (the final `_state = Stopped`). -/
inductive action where
  | push (time dtype : Nat) (id : String) (data : List Nat)
  | data_ready
  | xrun
  | stop
  | reset
  | start (ret : Int)
  | request_buffer_size (bytes : Nat)
  | bind_logger (rc : Int)
  | send_log (frames : List (String × Bool))
  | lock
  | step
  | wake
  | relock
  | store_stopped
  deriving DecidableEq, Repr

namespace system

/-- The effect of one action; none when the action cannot happen in this state (a
blocked thread, or no such thread) or has no defined successor state (a resize
outside its precondition, an exception that terminates the process). -/
def next (s : system) : action → Option system
  | action.push time dtype id data => some (s.push time dtype id data)
  | action.data_ready => some s.data_ready
  | action.xrun => some s.xrun
  | action.stop => some s.stop
  | action.reset => some s.reset
  | action.start ret => some (s.start ret).1
  | action.request_buffer_size bytes =>
    if s.holder = none then
      (s.self.request_buffer_size bytes).map (fun r => { s with self := r.1 })
    else none
  | action.bind_logger rc => some { s with self := s.self.bind_logger rc }
  | action.send_log frames => some { s with socket := s.socket ++ frames }
  | action.lock =>
    if s.holder = none ∧ 0 < s.created then
      some { s with holder := some pc_t.set_running, created := s.created - 1 }
    else none
  | action.step =>
    match s.holder with
    | some pc => if s.throws pc = true then none else some (s.thread pc)
    | none => none
  | action.wake =>
    if 0 < s.waiting then
      some { s with waiting := s.waiting - 1, signalled := s.signalled + 1 }
    else none
  | action.relock =>
    if s.holder = none ∧ 0 < s.signalled then
      some { s with holder := some pc_t.check_xrun, signalled := s.signalled - 1 }
    else none
  | action.store_stopped =>
    if 0 < s.exiting then
      some { s with self := { s.self with _state := state_t.Stopped }
                    exiting := s.exiting - 1 }
    else none

/-- Run a list of actions, oldest first; none when one of them cannot happen. -/
def run (s : system) : List action → Option system
  | [] => some s
  | a :: rest => (s.next a).bind (fun s' => run s' rest)

/-- The records handed to the sink's write operation, in call order. -/
def written : List sink_call → List data_block_t
  | [] => []
  | sink_call.write b :: rest => b :: written rest
  | _ :: rest => written rest

end system

end jill


namespace jill

namespace system

/-- The record the lock holder has peeked and not yet released, if any. -/
def in_flight : Option pc_t → Option data_block_t
  | some (pc_t.write_reset hdr) => some hdr
  | some (pc_t.write_data hdr) => some hdr
  | some (pc_t.release hdr) => some hdr
  | _ => none

/-- The records in the ring buffer that have not been handed to the sink: the
buffer contents, without the oldest record once the holder has written it and is
about to release it. -/
def unread (s : system) : List data_block_t :=
  match s.holder with
  | some (pc_t.release _) => s.self._buffer.blocks.tail
  | _ => s.self._buffer.blocks

/-- FIFO invariant of the engine: the accepted records are the written ones followed
by the unread ones, and the record held by the consumer is the oldest in the buffer. -/
def fifo_inv (s : system) : Prop :=
  s.pushed = written s.sink ++ unread s ∧
  ∀ hdr, in_flight s.holder = some hdr → s.self._buffer.blocks.head? = some hdr

end system

/-! ## Concrete records and runs used to exercise the theorems -/

namespace scenario

/-- First record of the scenarios. -/
def A : data_block_t := ⟨10, 0, "pcm", [1, 2, 3, 4]⟩

/-- Second record. -/
def B : data_block_t := ⟨20, 0, "pcm", [5, 6, 7, 8]⟩

/-- Third record. -/
def C : data_block_t := ⟨30, 1, "trg", [1, 0, 0, 0]⟩

/-- Fourth record. -/
def D : data_block_t := ⟨40, 0, "pcm", [4, 3, 2, 1]⟩

/-- Fifth record, the one that does not fit. -/
def E : data_block_t := ⟨50, 0, "pcm", [0, 0, 0, 0]⟩

/-- The call `push` with the fields of a record as arguments. -/
def push_of (b : data_block_t) : action :=
  action.push b.time b.dtype b.id b.data

/-- An engine whose buffer holds exactly four of the records above (header 8 bytes,
identifier 3 bytes, payload 4 bytes: 15 bytes each). -/
def fresh : system :=
  system.construct 60 8 false false

/-- Start the consumer thread and let it run its start-up statements, up to the head
of the loop. -/
def boot : List action :=
  [action.start 0, action.lock, action.step, action.step, action.step]

/-- From the head of the loop with an empty buffer: check the overrun flag, peek,
drain messages, check the state, flush and block in the wait. -/
def idle_cycle : List action :=
  [action.step, action.step, action.step, action.step, action.step, action.step]

/-- From the head of the loop with a record in the buffer: check the overrun flag,
peek, and the three statements of `write`. -/
def write_cycle : List action :=
  [action.step, action.step, action.step, action.step, action.step]

/-- A short run: two records are pushed and the consumer has handed the first to the
sink (it has not released it yet). -/
def fifo_run : List action :=
  boot ++ [push_of A, push_of B, action.step, action.step, action.step, action.step]

/-- The state reached by `fifo_run`. -/
def fifo_final : system :=
  { self :=
      { _state := state_t.Running
        _xrun := false
        _reset := false
        _buffer := ⟨60, 8, [A, B]⟩
        _logger_bound := false }
    socket := []
    sink := [sink_call.write A]
    holder := some (pc_t.release A)
    created := 0
    waiting := 0
    signalled := 0
    exiting := 0
    pushed := [A, B]
    xruns := 0 }

end scenario

namespace system

/-- Number of calls of the sink's xrun operation in a call sequence. -/
def xrun_calls (sink : List sink_call) : Nat :=
  sink.count sink_call.xrun

end system

namespace scenario

/-- The consumer starts and finds the buffer empty; before it looks at `_state` the
producer pushes `A` and `stop()` is called; the consumer then leaves the loop, closes
the entry and stores `Stopped`. -/
def drain_race_run : List action :=
  boot ++ [action.step, action.step, push_of A, action.stop, action.step, action.step,
    action.step, action.step, action.store_stopped]

/-- The state reached by `drain_race_run`: the thread is gone, the state is
`Stopped`, `A` is still in the ring buffer and was never handed to the sink. -/
def drain_race_final : system :=
  { self :=
      { _state := state_t.Stopped
        _xrun := false
        _reset := false
        _buffer := ⟨60, 8, [A]⟩
        _logger_bound := false }
    socket := []
    sink := [sink_call.close_entry]
    holder := none
    created := 0
    waiting := 0
    signalled := 0
    exiting := 0
    pushed := [A]
    xruns := 0 }

/-- A running engine with a full buffer, the consumer at the head of its loop. -/
def full : system :=
  { self :=
      { _state := state_t.Running
        _xrun := false
        _reset := false
        _buffer := ⟨60, 8, [A, B, C, D]⟩
        _logger_bound := false }
    socket := []
    sink := []
    holder := some pc_t.check_xrun
    created := 0
    waiting := 0
    signalled := 0
    exiting := 0
    pushed := [A, B, C, D]
    xruns := 0 }

end scenario

namespace scenario

/-- The state a run ends in (the start state when the run cannot happen). -/
def after (s : system) (acts : List action) : system :=
  (s.run acts).getD s

end scenario

namespace system

/-- No consumer thread is starting up or on its way out: none is blocked before the
start-up statements, the lock holder is not in them, and none is between leaving the
loop's `close_entry` and the final store to `_state`. -/
def settled (s : system) : Prop :=
  s.created = 0 ∧ s.exiting = 0 ∧ s.holder ≠ some pc_t.set_running ∧
    s.holder ≠ some pc_t.clear_reset ∧ s.holder ≠ some pc_t.unlock

instance settled_decidable (s : system) : Decidable (settled s) :=
  inferInstanceAs (Decidable (s.created = 0 ∧ s.exiting = 0 ∧
    s.holder ≠ some pc_t.set_running ∧ s.holder ≠ some pc_t.clear_reset ∧
    s.holder ≠ some pc_t.unlock))

end system

namespace scenario

end scenario

namespace scenario

/-- Five pushes before the consumer runs, the wake, and the consumer's statements
until it blocks again: four write cycles and one idle cycle. -/
def four_then_overrun (a b c d e : data_block_t) : List action :=
  [push_of a, push_of b, push_of c, push_of d, push_of e, action.data_ready,
    action.relock] ++ write_cycle ++ write_cycle ++ write_cycle ++ write_cycle ++
    idle_cycle

end scenario

namespace scenario

/-- The start-up race: the thread has stored `Running` but not yet cleared the flags
when `A` is pushed, `reset()` is called and `B` is pushed; the thread then finishes
its start-up and writes both records. -/
def startup_reset_run : List action :=
  [action.start 0, action.lock, action.step, push_of A, action.reset, push_of B,
    action.step, action.step] ++ write_cycle ++
    [action.step, action.step, action.step, action.step]

end scenario

/-! ## The log transport seen as a queue of multipart messages -/

namespace buffered_data_writer

/-- The frames of one multipart message on the socket: every part but the last
carries the `ZMQ_RCVMORE` indication. -/
def frames_of : List String → List (String × Bool)
  | [] => []
  | [part] => [(part, false)]
  | part :: next :: rest => (part, true) :: frames_of (next :: rest)

/-- The socket contents when the given messages are pending, oldest first. -/
def socket_of : List (List String) → List (String × Bool)
  | [] => []
  | m :: rest => frames_of m ++ socket_of rest

/-- The sink call `write_messages` makes for one received message, if any: the test
`messages.size() >= 3` and the call
`log(from_iso_string(messages[1]), messages[0], messages[2])`. -/
def log_of (m : List String) : Option sink_call :=
  if m.length ≥ 3 then
    (from_iso_string (m.getD 1 "")).map
      (fun timestamp => sink_call.log timestamp (m.getD 0 "") (m.getD 2 ""))
  else none

/-- Whether handling a received message makes `from_iso_string` throw: it has at
least three parts and its second part is not a time in ISO form. -/
def unparsable (m : List String) : Bool :=
  decide (m.length ≥ 3) && (from_iso_string (m.getD 1 "")).isNone

end buffered_data_writer

namespace scenario

/-- An engine with the logger bound. -/
def bound : buffered_data_writer :=
  (buffered_data_writer.construct 60 8 false false).bind_logger 0

end scenario

namespace scenario

/-- Two calls of `start()` before any thread has run; the first thread starts, idles
and blocks; `stop()` is called. -/
def double_start : List action :=
  [action.start 0, action.start 0, action.lock, action.step, action.step, action.step] ++
    idle_cycle ++ [action.stop]

/-- After `double_start`: the first thread wakes, finds the buffer empty and the
state `Stopping`, leaves the loop and releases the lock; the second thread acquires
it and executes its first statement. -/
def first_exits_second_starts : List action :=
  [action.relock, action.step, action.step, action.step, action.step, action.step,
    action.step, action.lock, action.step]

/-- An engine whose buffer (10 bytes) is too small for any of the records. -/
def small : system :=
  system.construct 10 8 false false

end scenario

/-! ## The JACK ring buffer and the wrappers of `jill/util/ringbuffer.hh`

`Ringbuffer<T>` is a thin wrapper around the ring buffer of the JACK library
(`jack/ringbuffer.h`, not part of the repository).  The library functions the wrapper
calls are embedded below after the library's implementation: a byte array whose
length is a power of two, a read and a write index, and `x & size_mask` written as
`x % size`. -/

/-- The record `jack_ringbuffer_t`: the byte array, the two indices and the array
length (`size_mask` is `size - 1`). -/
structure jack_ringbuffer_t where
  buf : List Nat
  write_ptr : Nat
  read_ptr : Nat
  size : Nat
  deriving DecidableEq, Repr

/-- One element of the vectors filled by `jack_ringbuffer_get_write_vector`: the
index in the byte array where the region starts, and its length in bytes. -/
structure jack_ringbuffer_data_t where
  buf : Nat
  len : Nat
  deriving DecidableEq, Repr

/-- The loop `for (power_of_two = 1; 1 << power_of_two < sz; power_of_two++)` of
`jack_ringbuffer_create`, with a bound on the number of iterations. -/
def power_of_two_loop (sz : Nat) : Nat → Nat → Nat
  | 0, power_of_two => power_of_two
  | fuel + 1, power_of_two =>
    if 2 ^ power_of_two < sz then power_of_two_loop sz fuel (power_of_two + 1)
    else power_of_two

/-- The library call `jack_ringbuffer_create(sz)`: the array length is the least
power of two, at least 2, that is not below `sz`; both indices start at 0. -/
def jack_ringbuffer_create (sz : Nat) : jack_ringbuffer_t :=
  { buf := List.replicate (2 ^ power_of_two_loop sz sz 1) 0
    write_ptr := 0
    read_ptr := 0
    size := 2 ^ power_of_two_loop sz sz 1 }

/-- The library call `jack_ringbuffer_read_space`: bytes available for reading. -/
def jack_ringbuffer_read_space (rb : jack_ringbuffer_t) : Nat :=
  if rb.write_ptr > rb.read_ptr then rb.write_ptr - rb.read_ptr
  else (rb.write_ptr + rb.size - rb.read_ptr) % rb.size

/-- The library call `jack_ringbuffer_write_space`: bytes available for writing; one
byte of the array always stays unused. -/
def jack_ringbuffer_write_space (rb : jack_ringbuffer_t) : Nat :=
  if rb.write_ptr > rb.read_ptr then
    ((rb.read_ptr + rb.size - rb.write_ptr) % rb.size) - 1
  else if rb.write_ptr < rb.read_ptr then (rb.read_ptr - rb.write_ptr) - 1
  else rb.size - 1

/-- The library call `jack_ringbuffer_read_advance`: move the read index, with no
check against the write index. -/
def jack_ringbuffer_read_advance (rb : jack_ringbuffer_t) (cnt : Nat) : jack_ringbuffer_t :=
  { rb with read_ptr := (rb.read_ptr + cnt) % rb.size }

/-- The library call `jack_ringbuffer_write_advance`: move the write index, with no
check against the read index. -/
def jack_ringbuffer_write_advance (rb : jack_ringbuffer_t) (cnt : Nat) : jack_ringbuffer_t :=
  { rb with write_ptr := (rb.write_ptr + cnt) % rb.size }

/-- The effect of `memcpy(&buf[at], src, n)` on the byte array. -/
def memcpy (buf : List Nat) (pos : Nat) (src : List Nat) (n : Nat) : List Nat :=
  (buf.take pos ++ src.take n ++ buf.drop (pos + (src.take n).length)).take buf.length

/-- The library call `jack_ringbuffer_write(rb, src, cnt)`: copy at most `cnt` bytes,
as many as there is write space for, in one or two pieces; returns the number of
bytes written. -/
def jack_ringbuffer_write (rb : jack_ringbuffer_t) (src : List Nat) (cnt : Nat) :
    jack_ringbuffer_t × Nat :=
  if jack_ringbuffer_write_space rb = 0 then (rb, 0)
  else
    let to_write := if cnt > jack_ringbuffer_write_space rb then jack_ringbuffer_write_space rb
      else cnt
    let cnt2 := rb.write_ptr + to_write
    let n1 := if cnt2 > rb.size then rb.size - rb.write_ptr else to_write
    let n2 := if cnt2 > rb.size then cnt2 % rb.size else 0
    let rb1 : jack_ringbuffer_t :=
      { rb with buf := memcpy rb.buf rb.write_ptr src n1
                write_ptr := (rb.write_ptr + n1) % rb.size }
    if n2 ≠ 0 then
      ({ rb1 with buf := memcpy rb1.buf rb1.write_ptr (src.drop n1) n2
                  write_ptr := (rb1.write_ptr + n2) % rb1.size }, to_write)
    else (rb1, to_write)

/-- The library call `jack_ringbuffer_get_write_vector`: the one or two contiguous
free regions, in write order. -/
def jack_ringbuffer_get_write_vector (rb : jack_ringbuffer_t) :
    jack_ringbuffer_data_t × jack_ringbuffer_data_t :=
  if rb.write_ptr + jack_ringbuffer_write_space rb > rb.size then
    (⟨rb.write_ptr, rb.size - rb.write_ptr⟩,
     ⟨0, (rb.write_ptr + jack_ringbuffer_write_space rb) % rb.size⟩)
  else
    (⟨rb.write_ptr, jack_ringbuffer_write_space rb⟩, ⟨0, 0⟩)

/-- The class `Ringbuffer<T>`: the wrapped JACK ring buffer `_rb`, and
`sizeof(data_type)` as a parameter. -/
structure Ringbuffer where
  _rb : jack_ringbuffer_t
  sizeof_T : Nat
  deriving DecidableEq, Repr

/-- A generator passed to `push(Fun&)`: called as `data_fun(buf, len)` it stores
`bytes len` at `buf` and returns `count len`. -/
structure generator where
  bytes : Nat → List Nat
  count : Nat → Nat

namespace Ringbuffer

/-- The constructor `Ringbuffer(size)`: `jack_ringbuffer_create(size * sizeof(T))`. -/
def construct (size sizeof_T : Nat) : Ringbuffer :=
  { _rb := jack_ringbuffer_create (size * sizeof_T), sizeof_T := sizeof_T }

/-- The member `write_space()`. -/
def write_space (self : Ringbuffer) : Nat :=
  jack_ringbuffer_write_space self._rb / self.sizeof_T

/-- The member `read_space()`. -/
def read_space (self : Ringbuffer) : Nat :=
  jack_ringbuffer_read_space self._rb / self.sizeof_T

/-- The member `size()`. -/
def size (self : Ringbuffer) : Nat :=
  self.read_space + self.write_space

/-- The member `push(src, nframes)`; `src` is the source buffer as bytes. -/
def push (self : Ringbuffer) (src : List Nat) (nframes : Nat) : Ringbuffer × Nat :=
  ({ self with _rb := (jack_ringbuffer_write self._rb src (self.sizeof_T * nframes)).1 },
   (jack_ringbuffer_write self._rb src (self.sizeof_T * nframes)).2 / self.sizeof_T)

/-- One pass of the loop body of `push(Fun&)` for the vector element `v`; the state
is the ring buffer and the local `nsamp`. -/
def push_fun_body (data_fun : generator) (v : jack_ringbuffer_data_t)
    (st : jack_ringbuffer_t × Nat) : jack_ringbuffer_t × Nat :=
  if v.len > 0 then
    (jack_ringbuffer_write_advance
      { st.1 with buf := memcpy st.1.buf v.buf (data_fun.bytes v.len)
                    (data_fun.bytes v.len).length }
      (st.2 + data_fun.count v.len),
     st.2 + data_fun.count v.len)
  else
    (jack_ringbuffer_write_advance st.1 st.2, st.2)

/-- The member `push(Fun &data_fun)`, the generator overload: the write vector is
taken once, then the loop body runs for `vec[0]` and `vec[1]`. -/
def push_fun (self : Ringbuffer) (data_fun : generator) : Ringbuffer × Nat :=
  ({ self with
      _rb := (push_fun_body data_fun (jack_ringbuffer_get_write_vector self._rb).2
        (push_fun_body data_fun (jack_ringbuffer_get_write_vector self._rb).1
          (self._rb, 0))).1 },
   (push_fun_body data_fun (jack_ringbuffer_get_write_vector self._rb).2
      (push_fun_body data_fun (jack_ringbuffer_get_write_vector self._rb).1
        (self._rb, 0))).2)

/-- The member `advance(nframes)`. -/
def advance (self : Ringbuffer) (nframes : Nat) : Ringbuffer × Nat :=
  ({ self with
      _rb := jack_ringbuffer_read_advance self._rb
        ((if nframes = 0 then self.read_space else min self.read_space nframes) *
          self.sizeof_T) },
   if nframes = 0 then self.read_space else min self.read_space nframes)

/-- A state the wrapper can be in: the array length is a power of two and is the
length of the array, both indices are inside the array, and `sizeof(T)` is
positive. -/
def valid (self : Ringbuffer) : Prop :=
  (∃ k, self._rb.size = 2 ^ k) ∧ self._rb.buf.length = self._rb.size ∧
    self._rb.read_ptr < self._rb.size ∧ self._rb.write_ptr < self._rb.size ∧
    0 < self.sizeof_T

end Ringbuffer

/-- The class `Prebuffer<T>`: a `Ringbuffer<T>` with the member `_size`. -/
structure Prebuffer extends Ringbuffer where
  _size : Nat
  deriving DecidableEq, Repr

/-- The conversion of a `size_t` value (64 bits) to `int` (32 bits, two's
complement). -/
def size_t_to_int (u : Nat) : Int :=
  if u % 2 ^ 32 < 2 ^ 31 then ((u % 2 ^ 32 : Nat) : Int)
  else ((u % 2 ^ 32 : Nat) : Int) - 2 ^ 32

namespace Prebuffer

/-- The constructor `Prebuffer(size)`. -/
def construct (size sizeof_T : Nat) : Prebuffer :=
  { toRingbuffer := Ringbuffer.construct size sizeof_T, _size := size }

/-- The local `nflush` of `push`: `read_space() + nwrite - _size` computed in
`size_t` and converted to `int`. -/
def nflush (self : Prebuffer) (nwrite : Nat) : Int :=
  size_t_to_int ((self.toRingbuffer.read_space + nwrite + 2 ^ 64 - self._size) % 2 ^ 64)

/-- The member `Prebuffer::push(in, nframes)`; `inp` is the input as bytes. -/
def push (self : Prebuffer) (inp : List Nat) (nframes : Nat) : Prebuffer × Nat :=
  if self.nflush (min self._size nframes) > 0 then
    ({ self with
        toRingbuffer :=
          ((self.toRingbuffer.advance (self.nflush (min self._size nframes)).toNat).1.push
            (inp.drop ((nframes - min self._size nframes) * self.sizeof_T))
            (min self._size nframes)).1 },
     ((self.toRingbuffer.advance (self.nflush (min self._size nframes)).toNat).1.push
        (inp.drop ((nframes - min self._size nframes) * self.sizeof_T))
        (min self._size nframes)).2)
  else
    ({ self with
        toRingbuffer :=
          (self.toRingbuffer.push
            (inp.drop ((nframes - min self._size nframes) * self.sizeof_T))
            (min self._size nframes)).1 },
     (self.toRingbuffer.push
        (inp.drop ((nframes - min self._size nframes) * self.sizeof_T))
        (min self._size nframes)).2)

end Prebuffer

namespace scenario

/-- A ring buffer of eight one-byte items holding `[1, 2, 3, 4, 5]`, written after
three items had been written and read, so the data wraps around the array end. -/
def wrapped : Ringbuffer :=
  { _rb := { buf := [4, 5, 0, 0, 0, 1, 2, 3], write_ptr := 2, read_ptr := 5, size := 8 }
    sizeof_T := 1 }

/-- A generator that stores three items whatever it is offered. -/
def three : generator :=
  { bytes := fun _ => [7, 7, 7], count := fun _ => 3 }

end scenario

/-- Whether a sink call is a call of the log operation. -/
def sink_call.is_log : sink_call → Bool
  | sink_call.log _ _ _ => true
  | _ => false

namespace system

/-- Four consecutive statements of the thread that holds the lock, with arbitrary
actions of other threads (`e0` to `e3`) before each of them. -/
def interleaved (e0 e1 e2 e3 : List action) : List action :=
  e0 ++ [action.step] ++ e1 ++ [action.step] ++ e2 ++ [action.step] ++ e3 ++ [action.step]

end system

namespace scenario

/-- The consumer has started and found the buffer empty: it is about to drain the
log messages. -/
def at_messages : system :=
  after fresh (boot ++ [action.step, action.step])

end scenario

namespace scenario

/-- The consumer has started, found the buffer empty, flushed and blocked in the wait
(the lock is free); the producer then pushes `A`. -/
def resize_race : List action :=
  boot ++ idle_cycle ++ [push_of A]

/-- A three-part log message whose second part is not a time. -/
def bad_message : List String :=
  ["jill", "yesterday", "oops"]

end scenario

namespace system

/-- Whether, in the run of `acts` from `s`, no consumer thread executes the start-up
statement that stores false to `_xrun`. -/
def no_startup_clear : system → List action → Bool
  | _, [] => true
  | s, a :: rest =>
    !(decide (a = action.step) && decide (s.holder = some pc_t.clear_xrun)) &&
      (match s.next a with
       | some t => no_startup_clear t rest
       | none => true)

/-- A sequence of calls of `push`, one for each record of the list. -/
def pushes (s : system) (rs : List data_block_t) : system :=
  rs.foldl (fun t r => t.push r.time r.dtype r.id r.data) s

end system

namespace scenario

/-- Two calls of `xrun()` while the engine is `Stopped`, then the consumer thread
starts, finds the buffer empty, flushes and blocks. -/
def xrun_before_start : List action :=
  [action.xrun, action.xrun] ++ boot ++ idle_cycle

/-- On the engine with the 10-byte buffer: the thread has stored `Running` but not
yet cleared the flags when two pushes fail; it then finishes its start-up, finds the
buffer empty, flushes and blocks. -/
def pushes_during_startup : List action :=
  [action.start 0, action.lock, action.step, push_of A, push_of B, action.step,
    action.step] ++ idle_cycle

end scenario

namespace scenario

/-- The consumer thread starts, checks the overrun flag and peeks an empty buffer;
the producer then pushes `A`, `stop()` is called, and the consumer runs its log drain
and arrives at the state test of the same cycle. -/
def exit_race : List action :=
  boot ++ [action.step, action.step, push_of A, action.stop, action.step]

end scenario

end jill

/-! # Lemmas and theorems -/

namespace jill

open system

/-! ## Frame lemmas for the member functions -/

section frame

variable (self : buffered_data_writer) (time dtype : Nat) (id : String) (data : List Nat)

theorem ring_push_blocks (rb : block_ringbuffer) :
    (rb.push time dtype id data).1.blocks =
      if (rb.push time dtype id data).2 = true then rb.blocks ++ [⟨time, dtype, id, data⟩]
      else rb.blocks := by
  unfold block_ringbuffer.push
  split <;> simp

theorem ring_push_capacity (rb : block_ringbuffer) :
    (rb.push time dtype id data).1.capacity = rb.capacity := by
  unfold block_ringbuffer.push
  split <;> rfl

theorem ring_push_header (rb : block_ringbuffer) :
    (rb.push time dtype id data).1.header = rb.header := by
  unfold block_ringbuffer.push
  split <;> rfl

theorem ring_push_fail (rb : block_ringbuffer)
    (h : (rb.push time dtype id data).2 = false) : (rb.push time dtype id data).1 = rb := by
  unfold block_ringbuffer.push at h ⊢
  split at h
  · cases h
  · simp [*]

theorem xrun_xrun : self.xrun._xrun = true := by
  unfold buffered_data_writer.xrun
  split
  · rfl
  · simpa using ‹¬ self._xrun = false›

theorem xrun_state : self.xrun._state = self._state := by
  unfold buffered_data_writer.xrun; split <;> rfl

theorem xrun_reset : self.xrun._reset = self._reset := by
  unfold buffered_data_writer.xrun; split <;> rfl

theorem xrun_buffer : self.xrun._buffer = self._buffer := by
  unfold buffered_data_writer.xrun; split <;> rfl

theorem xrun_logger_bound : self.xrun._logger_bound = self._logger_bound := by
  unfold buffered_data_writer.xrun; split <;> rfl

theorem push_state : (self.push time dtype id data)._state = self._state := by
  unfold buffered_data_writer.push
  split_ifs <;> simp [xrun_state]

theorem push_reset : (self.push time dtype id data)._reset = self._reset := by
  unfold buffered_data_writer.push
  split_ifs <;> simp [xrun_reset]

theorem push_logger_bound :
    (self.push time dtype id data)._logger_bound = self._logger_bound := by
  unfold buffered_data_writer.push
  split_ifs <;> simp [xrun_logger_bound]

theorem push_buffer :
    (self.push time dtype id data)._buffer =
      if self._state ≠ state_t.Stopping then (self._buffer.push time dtype id data).1
      else self._buffer := by
  unfold buffered_data_writer.push
  split_ifs <;> simp [xrun_buffer]

theorem push_xrun :
    (self.push time dtype id data)._xrun =
      if self._state ≠ state_t.Stopping ∧ (self._buffer.push time dtype id data).2 = false
      then true else self._xrun := by
  unfold buffered_data_writer.push
  split_ifs <;> simp_all [xrun_xrun]

theorem push_blocks :
    (self.push time dtype id data)._buffer.blocks =
      if self._state ≠ state_t.Stopping ∧ (self._buffer.push time dtype id data).2 = true
      then self._buffer.blocks ++ [⟨time, dtype, id, data⟩] else self._buffer.blocks := by
  rw [push_buffer]
  split_ifs <;> simp_all [ring_push_blocks]

theorem stop_cas_xrun : self.stop_cas._xrun = self._xrun := by
  unfold buffered_data_writer.stop_cas; split <;> rfl

theorem stop_cas_reset : self.stop_cas._reset = self._reset := by
  unfold buffered_data_writer.stop_cas; split <;> rfl

theorem stop_cas_buffer : self.stop_cas._buffer = self._buffer := by
  unfold buffered_data_writer.stop_cas; split <;> rfl

theorem stop_cas_logger_bound : self.stop_cas._logger_bound = self._logger_bound := by
  unfold buffered_data_writer.stop_cas; split <;> rfl

theorem stop_cas_state :
    self.stop_cas._state =
      if self._state = state_t.Running then state_t.Stopping else self._state := by
  unfold buffered_data_writer.stop_cas; split <;> simp [*]

theorem reset_state : self.reset._state = self._state := by
  unfold buffered_data_writer.reset; split_ifs <;> rfl

theorem reset_xrun : self.reset._xrun = self._xrun := by
  unfold buffered_data_writer.reset; split_ifs <;> rfl

theorem reset_buffer : self.reset._buffer = self._buffer := by
  unfold buffered_data_writer.reset; split_ifs <;> rfl

theorem reset_logger_bound : self.reset._logger_bound = self._logger_bound := by
  unfold buffered_data_writer.reset; split_ifs <;> rfl

theorem reset_reset :
    self.reset._reset = if self._state = state_t.Running then true else self._reset := by
  unfold buffered_data_writer.reset; split_ifs <;> simp_all

theorem request_buffer_size_some (bytes : Nat) (r : buffered_data_writer × Nat)
    (h : self.request_buffer_size bytes = some r) :
    r.1._state = self._state ∧ r.1._xrun = self._xrun ∧ r.1._reset = self._reset ∧
    r.1._logger_bound = self._logger_bound ∧
    r.1._buffer.blocks = self._buffer.blocks := by
  unfold buffered_data_writer.request_buffer_size at h
  split at h
  · unfold block_ringbuffer.resize at h
    split at h
    · simp only [Option.map_some', Option.some.injEq] at h
      subst h
      exact ⟨rfl, rfl, rfl, rfl, rfl⟩
    · simp at h
  · simp only [Option.some.injEq] at h
    subst h
    exact ⟨rfl, rfl, rfl, rfl, rfl⟩

theorem bind_logger_buffer (rc : Int) : (self.bind_logger rc)._buffer = self._buffer := by
  unfold buffered_data_writer.bind_logger; split_ifs <;> rfl

end frame

theorem next_request_some (s s' : system) (bytes : Nat)
    (hn : s.next (action.request_buffer_size bytes) = some s') :
    ∃ r, s.self.request_buffer_size bytes = some r ∧ s' = { s with self := r.1 } := by
  simp only [next] at hn
  split at hn
  · cases hq : s.self.request_buffer_size bytes with
    | none => simp [hq] at hn
    | some r =>
      simp only [hq, Option.map_some', Option.some.injEq] at hn
      exact ⟨r, rfl, hn.symm⟩
  · cases hn

theorem step_result (s s' : system) (pc : pc_t) (hh : s.holder = some pc)
    (hn : s.next action.step = some s') : s.thread pc = s' := by
  simp only [next, hh] at hn
  split at hn
  · cases hn
  · exact Option.some.inj hn

theorem data_ready_self (s : system) : s.data_ready.self = s.self := by
  unfold system.data_ready; split_ifs <;> rfl

theorem data_ready_sink (s : system) : s.data_ready.sink = s.sink := by
  unfold system.data_ready; split_ifs <;> rfl

theorem data_ready_holder (s : system) : s.data_ready.holder = s.holder := by
  unfold system.data_ready; split_ifs <;> rfl

theorem data_ready_pushed (s : system) : s.data_ready.pushed = s.pushed := by
  unfold system.data_ready; split_ifs <;> rfl

theorem data_ready_xruns (s : system) : s.data_ready.xruns = s.xruns := by
  unfold system.data_ready; split_ifs <;> rfl

theorem data_ready_socket (s : system) : s.data_ready.socket = s.socket := by
  unfold system.data_ready; split_ifs <;> rfl

theorem start_self (s : system) (ret : Int) : (s.start ret).1.self = s.self := by
  unfold system.start; split_ifs <;> rfl

theorem start_sink (s : system) (ret : Int) : (s.start ret).1.sink = s.sink := by
  unfold system.start; split_ifs <;> rfl

theorem start_holder (s : system) (ret : Int) : (s.start ret).1.holder = s.holder := by
  unfold system.start; split_ifs <;> rfl

theorem start_pushed (s : system) (ret : Int) : (s.start ret).1.pushed = s.pushed := by
  unfold system.start; split_ifs <;> rfl

theorem start_xruns (s : system) (ret : Int) : (s.start ret).1.xruns = s.xruns := by
  unfold system.start; split_ifs <;> rfl

theorem written_append (xs ys : List sink_call) :
    written (xs ++ ys) = written xs ++ written ys := by
  induction xs with
  | nil => rfl
  | cons c rest ih => cases c <;> simp [written, ih]

theorem write_messages_loop_ext (n : Nat) (socket : List (String × Bool))
    (calls : List sink_call) :
    ∃ extra, (buffered_data_writer.write_messages_loop n socket calls).2.1 = calls ++ extra ∧
      ∀ c ∈ extra, c.is_log = true := by
  induction n generalizing socket calls with
  | zero => exact ⟨[], by simp [buffered_data_writer.write_messages_loop], by simp⟩
  | succ n ih =>
    unfold buffered_data_writer.write_messages_loop
    rcases h : buffered_data_writer.recv_parts socket [] with ⟨_ | messages, rest⟩
    · exact ⟨[], by simp, by simp⟩
    · simp only []
      split
      · split
        · rename_i timestamp _
          obtain ⟨extra, he, hl⟩ := ih rest (calls ++
            [sink_call.log timestamp (messages.getD 0 "") (messages.getD 2 "")])
          refine ⟨sink_call.log timestamp (messages.getD 0 "") (messages.getD 2 "") :: extra,
            by rw [he]; simp, ?_⟩
          intro c hc
          rcases List.mem_cons.mp hc with h1 | h1
          · subst h1; rfl
          · exact hl c h1
        · exact ⟨[], by simp, by simp⟩
      · exact ih rest calls

theorem write_messages_logs (self : buffered_data_writer) (socket : List (String × Bool)) :
    ∀ c ∈ (self.write_messages socket).2.1, c.is_log = true := by
  unfold buffered_data_writer.write_messages
  split
  · intro c hc
    cases hc
  · obtain ⟨extra, he, hl⟩ := write_messages_loop_ext buffered_data_writer.max_messages socket []
    rw [he]
    simpa using hl

theorem written_logs (cs : List sink_call) (h : ∀ c ∈ cs, c.is_log = true) :
    written cs = [] := by
  induction cs with
  | nil => rfl
  | cons c rest ih =>
    have hc := h c (List.mem_cons_self _ _)
    have hr := ih (fun x hx => h x (List.mem_cons_of_mem _ hx))
    cases c <;> simp [sink_call.is_log] at hc
    simpa [written] using hr

theorem written_write_messages (self : buffered_data_writer) (socket : List (String × Bool)) :
    written (self.write_messages socket).2.1 = [] :=
  written_logs _ (write_messages_logs self socket)

theorem fifo_inv_construct (buffer_size header : Nat) (xrun0 reset0 : Bool) :
    fifo_inv (system.construct buffer_size header xrun0 reset0) := by
  simp [fifo_inv, system.construct, buffered_data_writer.construct, written, unread, in_flight]

theorem fifo_inv_thread (s : system) (pc : pc_t) (h : fifo_inv s) (hp : s.holder = some pc) :
    fifo_inv (s.thread pc) := by
  obtain ⟨h1, h2⟩ := h
  simp only [unread, hp] at h1
  simp only [hp] at h2
  cases pc <;>
    simp only [fifo_inv, system.thread, system.write_reset, unread, in_flight] at h1 h2 ⊢
  case peek =>
    cases hb : s.self._buffer.peek_ahead with
    | none => simpa using h1
    | some hdr =>
      refine ⟨by simpa using h1, ?_⟩
      intro hdr' hh
      simp only [Option.some.injEq] at hh
      subst hh
      simpa [block_ringbuffer.peek_ahead] using hb
  case messages => simpa [written_append, written_write_messages] using h1
  case write_reset hdr =>
    have hh := h2 hdr rfl
    split
    · simpa [written_append, written] using ⟨h1, hh⟩
    · simpa using ⟨h1, hh⟩
  case write_data hdr =>
    have hh := h2 hdr rfl
    cases hb : s.self._buffer.blocks with
    | nil => simp [hb] at hh
    | cons b rest =>
      simp only [hb, List.head?_cons, Option.some.injEq] at hh
      subst hh
      simp [written_append, written, h1, hb]
  case release hdr =>
    simpa [block_ringbuffer.release] using h1
  all_goals first
    | (simpa [written_append, written] using h1)
    | (split <;> simpa [written_append, written] using h1)

theorem fifo_inv_next (s s' : system) (a : action) (h : fifo_inv s)
    (hn : s.next a = some s') : fifo_inv s' := by
  obtain ⟨h1, h2⟩ := h
  cases a with
  | push time dtype id data =>
    simp only [next, Option.some.injEq] at hn
    subst hn
    simp only [fifo_inv, system.push, unread, push_blocks] at h1 ⊢
    by_cases hacc : s.self._state ≠ state_t.Stopping ∧
        (s.self._buffer.push time dtype id data).2 = true
    · rw [if_pos hacc, if_pos hacc]
      constructor
      · rw [h1]
        rcases hh : s.holder with _ | pc
        · simp
        · cases pc <;> simp
          have := h2 _ (by rw [hh]; rfl)
          cases hb : s.self._buffer.blocks <;> simp_all
      · intro hdr hin
        have := h2 hdr hin
        cases hb : s.self._buffer.blocks <;> simp_all
    · rw [if_neg hacc, if_neg hacc]
      exact ⟨h1, h2⟩
  | step =>
    cases hh : s.holder with
    | none => simp [next, hh] at hn
    | some pc =>
      replace hn := step_result s s' pc hh hn
      subst hn
      exact fifo_inv_thread s pc ⟨h1, h2⟩ hh
  | request_buffer_size bytes =>
    obtain ⟨r, hrq, hn⟩ := next_request_some s s' bytes hn
    subst hn
    have hfr := request_buffer_size_some s.self bytes r hrq
    simpa [fifo_inv, unread, hfr.2.2.2.2] using ⟨h1, h2⟩
  | lock =>
    simp only [next] at hn
    split at hn
    · rename_i hc
      simp only [Option.some.injEq] at hn
      subst hn
      simpa [fifo_inv, unread, in_flight, hc.1] using h1
    · cases hn
  | relock =>
    simp only [next] at hn
    split at hn
    · rename_i hc
      simp only [Option.some.injEq] at hn
      subst hn
      simpa [fifo_inv, unread, in_flight, hc.1] using h1
    · cases hn
  | wake =>
    simp only [next] at hn
    split at hn
    · simp only [Option.some.injEq] at hn
      subst hn
      exact ⟨h1, h2⟩
    · cases hn
  | store_stopped =>
    simp only [next] at hn
    split at hn
    · simp only [Option.some.injEq] at hn
      subst hn
      exact ⟨h1, h2⟩
    · cases hn
  | data_ready =>
    simp only [next, Option.some.injEq] at hn
    subst hn
    simpa [fifo_inv, unread, data_ready_self, data_ready_sink, data_ready_holder,
      data_ready_pushed] using ⟨h1, h2⟩
  | xrun =>
    simp only [next, Option.some.injEq] at hn
    subst hn
    simpa [fifo_inv, unread, system.xrun, xrun_buffer] using ⟨h1, h2⟩
  | stop =>
    simp only [next, Option.some.injEq] at hn
    subst hn
    simpa [fifo_inv, unread, system.stop, data_ready_self, data_ready_sink, data_ready_holder,
      data_ready_pushed, stop_cas_buffer] using ⟨h1, h2⟩
  | reset =>
    simp only [next, Option.some.injEq] at hn
    subst hn
    simpa [fifo_inv, unread, system.reset, reset_buffer] using ⟨h1, h2⟩
  | start ret =>
    simp only [next, Option.some.injEq] at hn
    subst hn
    simpa [fifo_inv, unread, start_self, start_sink, start_holder, start_pushed]
      using ⟨h1, h2⟩
  | bind_logger rc =>
    simp only [next, Option.some.injEq] at hn
    subst hn
    simpa [fifo_inv, unread, bind_logger_buffer] using ⟨h1, h2⟩
  | send_log frames =>
    simp only [next, Option.some.injEq] at hn
    subst hn
    exact ⟨h1, h2⟩

theorem fifo_inv_run (acts : List action) (s s' : system) (h : fifo_inv s)
    (hr : s.run acts = some s') : fifo_inv s' := by
  induction acts generalizing s with
  | nil =>
    simp only [run, Option.some.injEq] at hr
    subst hr
    exact h
  | cons a rest ih =>
    simp only [run] at hr
    cases hn : s.next a with
    | none => simp [hn] at hr
    | some s1 =>
      rw [hn] at hr
      exact ih s1 (fifo_inv_next s s1 a h hn) hr

/-- C1 (FIFO delivery): in every run from a freshly constructed engine, under every
interleaving of member-function calls and consumer statements, the records handed to
the sink's write operation are an initial segment of the records the ring buffer
accepted, in the same order and with the same timestamp, type, source id and payload;
the accepted records are exactly the written ones followed by the unread ones, so no
record is written twice or skipped. -/
theorem fifo_delivery (buffer_size header : Nat) (xrun0 reset0 : Bool)
    (acts : List action) (s : system)
    (hr : (system.construct buffer_size header xrun0 reset0).run acts = some s) :
    written s.sink <+: s.pushed ∧ s.pushed = written s.sink ++ unread s := by
  have h := fifo_inv_run acts _ s (fifo_inv_construct buffer_size header xrun0 reset0) hr
  exact ⟨⟨unread s, h.1.symm⟩, h.1⟩

/-- Witness for C1: the run `fifo_run` reaches `fifo_final`, where `A` has been
written and `B` is still unread. -/
theorem fifo_delivery_witness :
    (system.construct 60 8 false false).run scenario.fifo_run = some scenario.fifo_final ∧
    (written scenario.fifo_final.sink <+: scenario.fifo_final.pushed ∧
      scenario.fifo_final.pushed =
        written scenario.fifo_final.sink ++ unread scenario.fifo_final) :=
  ⟨by decide, fifo_delivery 60 8 false false scenario.fifo_run scenario.fifo_final (by decide)⟩

/-- C2 (drain before exit), evaluated at the failing interleaving: the consumer peeks
an empty buffer, the producer then pushes `A` while the state is still `Running`,
`stop()` is called, and the consumer, reading `Stopping`, leaves the loop.  The run
ends in `Stopped` with `A` accepted, still in the buffer, and never written. -/
theorem drain_race_loses_record :
    scenario.fresh.run scenario.drain_race_run = some scenario.drain_race_final ∧
    scenario.drain_race_final.pushed = [scenario.A] ∧
    written scenario.drain_race_final.sink = [] ∧
    scenario.drain_race_final.self._buffer.blocks = [scenario.A] ∧
    scenario.drain_race_final.self._state = state_t.Stopped := by
  decide

/-! ## Overrun signalling -/

theorem push_fail_eq_xrun (self : buffered_data_writer) (time dtype : Nat) (id : String)
    (data : List Nat) (hst : self._state ≠ state_t.Stopping)
    (hf : (self._buffer.push time dtype id data).2 = false) :
    self.push time dtype id data = self.xrun := by
  unfold buffered_data_writer.push
  rw [if_pos hst, if_pos hf, ring_push_fail _ _ _ _ _ hf]

theorem xrun_idem (self : buffered_data_writer) : self.xrun.xrun = self.xrun := by
  have h := xrun_xrun self
  rw [buffered_data_writer.xrun.eq_1 self.xrun]
  simp [h]

theorem xrun_iterate (self : buffered_data_writer) (k : Nat) :
    buffered_data_writer.xrun^[k + 1] self = self.xrun := by
  induction k with
  | zero => rfl
  | succ k ih =>
    rw [Function.iterate_succ_apply', ih, xrun_idem]

theorem push_fail_foldl (rs : List data_block_t) (self : buffered_data_writer)
    (hst : self._state ≠ state_t.Stopping)
    (hf : ∀ r ∈ rs, (self._buffer.push r.time r.dtype r.id r.data).2 = false) :
    rs.foldl (fun e r => e.push r.time r.dtype r.id r.data) self.xrun = self.xrun := by
  induction rs with
  | nil => rfl
  | cons r rest ih =>
    rw [List.foldl_cons]
    have h1 : self.xrun.push r.time r.dtype r.id r.data = self.xrun.xrun :=
      push_fail_eq_xrun _ _ _ _ _ (by rw [xrun_state]; exact hst)
        (by rw [xrun_buffer]; exact hf r (List.mem_cons_self _ _))
    rw [h1, xrun_idem]
    exact ih (fun r hr => hf r (List.mem_cons_of_mem _ hr))

theorem xrun_calls_append (xs ys : List sink_call) :
    xrun_calls (xs ++ ys) = xrun_calls xs + xrun_calls ys := by
  simp [xrun_calls]

theorem xrun_calls_logs (cs : List sink_call) (h : ∀ c ∈ cs, c.is_log = true) :
    xrun_calls cs = 0 := by
  induction cs with
  | nil => rfl
  | cons c rest ih =>
    have hc := h c (List.mem_cons_self _ _)
    have hr := ih (fun x hx => h x (List.mem_cons_of_mem _ hx))
    cases c <;> simp [sink_call.is_log] at hc
    simpa [xrun_calls] using hr

theorem xrun_calls_write_messages (self : buffered_data_writer)
    (socket : List (String × Bool)) :
    xrun_calls (self.write_messages socket).2.1 = 0 :=
  xrun_calls_logs _ (write_messages_logs self socket)

theorem xrun_budget_thread (s : system) (pc : pc_t) :
    xrun_calls (s.thread pc).sink + (s.thread pc).self._xrun.toNat + s.xruns ≤
      xrun_calls s.sink + s.self._xrun.toNat + (s.thread pc).xruns := by
  cases pc <;> simp only [system.thread, system.write_reset]
  case check_xrun =>
    split
    · rename_i h
      simp [xrun_calls_append, xrun_calls, h]
    · simp
  case peek => split <;> simp
  case messages => simp [xrun_calls_append, xrun_calls_write_messages]
  case check_state => split <;> simp
  case write_reset hdr => split <;> simp [xrun_calls_append, xrun_calls]
  all_goals simp [xrun_calls_append, xrun_calls]

theorem xrun_budget_next (s s' : system) (a : action) (hn : s.next a = some s') :
    xrun_calls s'.sink + s'.self._xrun.toNat + s.xruns ≤
      xrun_calls s.sink + s.self._xrun.toNat + s'.xruns := by
  cases a with
  | push time dtype id data =>
    simp only [next, Option.some.injEq] at hn
    subst hn
    simp only [system.push, push_xrun]
    split_ifs <;> (simp_all; try omega)
  | xrun =>
    simp only [next, Option.some.injEq] at hn
    subst hn
    simp only [system.xrun, xrun_xrun]
    cases s.self._xrun <;> (simp; try omega)
  | step =>
    cases hh : s.holder with
    | none => simp [next, hh] at hn
    | some pc =>
      replace hn := step_result s s' pc hh hn
      subst hn
      exact xrun_budget_thread s pc
  | data_ready =>
    simp only [next, Option.some.injEq] at hn
    subst hn
    simp [data_ready_self, data_ready_sink, data_ready_xruns]
  | stop =>
    simp only [next, Option.some.injEq] at hn
    subst hn
    simp [system.stop, data_ready_self, data_ready_sink, data_ready_xruns, stop_cas_xrun]
  | reset =>
    simp only [next, Option.some.injEq] at hn
    subst hn
    simp [system.reset, reset_xrun]
  | start ret =>
    simp only [next, Option.some.injEq] at hn
    subst hn
    simp [start_self, start_sink, start_xruns]
  | request_buffer_size bytes =>
    obtain ⟨r, hrq, hn⟩ := next_request_some s s' bytes hn
    subst hn
    have hfr := request_buffer_size_some s.self bytes r hrq
    simp [hfr.2.1]
  | bind_logger rc =>
    simp only [next, Option.some.injEq] at hn
    subst hn
    simp only [buffered_data_writer.bind_logger]
    split_ifs <;> simp
  | send_log frames =>
    simp only [next, Option.some.injEq] at hn
    subst hn
    simp
  | lock =>
    simp only [next] at hn
    split at hn
    · simp only [Option.some.injEq] at hn
      subst hn
      simp
    · cases hn
  | relock =>
    simp only [next] at hn
    split at hn
    · simp only [Option.some.injEq] at hn
      subst hn
      simp
    · cases hn
  | wake =>
    simp only [next] at hn
    split at hn
    · simp only [Option.some.injEq] at hn
      subst hn
      simp
    · cases hn
  | store_stopped =>
    simp only [next] at hn
    split at hn
    · simp only [Option.some.injEq] at hn
      subst hn
      simp
    · cases hn

theorem xrun_budget_run (acts : List action) (s s' : system) (hr : s.run acts = some s') :
    xrun_calls s'.sink + s'.self._xrun.toNat + s.xruns ≤
      xrun_calls s.sink + s.self._xrun.toNat + s'.xruns := by
  induction acts generalizing s with
  | nil =>
    simp only [run, Option.some.injEq] at hr
    subst hr
    exact le_refl _
  | cons a rest ih =>
    simp only [run] at hr
    cases hn : s.next a with
    | none => simp [hn] at hr
    | some s1 =>
      rw [hn] at hr
      have h1 := xrun_budget_next s s1 a hn
      have h2 := ih s1 hr
      omega

theorem sink_grows_thread (s : system) (pc : pc_t) :
    ∃ ext, (s.thread pc).sink = s.sink ++ ext := by
  cases pc <;> simp only [system.thread, system.write_reset]
  case check_xrun => split <;> [exact ⟨_, rfl⟩; exact ⟨[], by simp⟩]
  case peek => split <;> exact ⟨[], by simp⟩
  case check_state => split <;> exact ⟨[], by simp⟩
  case write_reset hdr => split <;> [exact ⟨_, rfl⟩; exact ⟨[], by simp⟩]
  case messages => exact ⟨_, rfl⟩
  case flush => exact ⟨_, rfl⟩
  case write_data hdr => exact ⟨_, rfl⟩
  case close => exact ⟨_, rfl⟩
  all_goals exact ⟨[], by simp⟩

theorem sink_grows_next (s s' : system) (a : action) (hn : s.next a = some s') :
    ∃ ext, s'.sink = s.sink ++ ext := by
  cases a with
  | step =>
    cases hh : s.holder with
    | none => simp [next, hh] at hn
    | some pc =>
      replace hn := step_result s s' pc hh hn
      subst hn
      exact sink_grows_thread s pc
  | push time dtype id data =>
    simp only [next, Option.some.injEq] at hn
    subst hn
    exact ⟨[], by simp [system.push]⟩
  | data_ready =>
    simp only [next, Option.some.injEq] at hn
    subst hn
    exact ⟨[], by simp [data_ready_sink]⟩
  | xrun =>
    simp only [next, Option.some.injEq] at hn
    subst hn
    exact ⟨[], by simp [system.xrun]⟩
  | stop =>
    simp only [next, Option.some.injEq] at hn
    subst hn
    exact ⟨[], by simp [system.stop, data_ready_sink]⟩
  | reset =>
    simp only [next, Option.some.injEq] at hn
    subst hn
    exact ⟨[], by simp [system.reset]⟩
  | start ret =>
    simp only [next, Option.some.injEq] at hn
    subst hn
    exact ⟨[], by simp [start_sink]⟩
  | bind_logger rc =>
    simp only [next, Option.some.injEq] at hn
    subst hn
    exact ⟨[], by simp⟩
  | send_log frames =>
    simp only [next, Option.some.injEq] at hn
    subst hn
    exact ⟨[], by simp⟩
  | request_buffer_size bytes =>
    obtain ⟨r, hrq, hn⟩ := next_request_some s s' bytes hn
    subst hn
    exact ⟨[], by simp⟩
  | lock =>
    simp only [next] at hn
    split at hn
    · simp only [Option.some.injEq] at hn
      subst hn
      exact ⟨[], by simp⟩
    · cases hn
  | relock =>
    simp only [next] at hn
    split at hn
    · simp only [Option.some.injEq] at hn
      subst hn
      exact ⟨[], by simp⟩
    · cases hn
  | wake =>
    simp only [next] at hn
    split at hn
    · simp only [Option.some.injEq] at hn
      subst hn
      exact ⟨[], by simp⟩
    · cases hn
  | store_stopped =>
    simp only [next] at hn
    split at hn
    · simp only [Option.some.injEq] at hn
      subst hn
      exact ⟨[], by simp⟩
    · cases hn

theorem sink_grows_run (acts : List action) (s s' : system) (hr : s.run acts = some s') :
    ∃ ext, s'.sink = s.sink ++ ext := by
  induction acts generalizing s with
  | nil =>
    simp only [run, Option.some.injEq] at hr
    subst hr
    exact ⟨[], by simp⟩
  | cons a rest ih =>
    simp only [run] at hr
    cases hn : s.next a with
    | none => simp [hn] at hr
    | some s1 =>
      rw [hn] at hr
      obtain ⟨e1, h1⟩ := sink_grows_next s s1 a hn
      obtain ⟨e2, h2⟩ := ih s1 hr
      exact ⟨e1 ++ e2, by rw [h2, h1, List.append_assoc]⟩

/-- C4 (engine push): `push` is a total state transformer (it has no error result).
In state `Stopping` it changes nothing, so the ring buffer and both flags are as
before.  In every other state the ring buffer becomes the result of the ring buffer's
own `push` with the same arguments, and `xrun()` is applied afterwards exactly when
that push reported failure.  `_state`, `_reset` and `_logger_bound` never change. -/
theorem push_effect (self : buffered_data_writer) (time dtype : Nat) (id : String)
    (data : List Nat) :
    (self._state = state_t.Stopping → self.push time dtype id data = self) ∧
    (self._state ≠ state_t.Stopping → (self._buffer.push time dtype id data).2 = true →
      self.push time dtype id data =
        { self with _buffer := (self._buffer.push time dtype id data).1 }) ∧
    (self._state ≠ state_t.Stopping → (self._buffer.push time dtype id data).2 = false →
      self.push time dtype id data =
        buffered_data_writer.xrun
          { self with _buffer := (self._buffer.push time dtype id data).1 }) ∧
    (self.push time dtype id data)._state = self._state ∧
    (self.push time dtype id data)._reset = self._reset ∧
    (self.push time dtype id data)._logger_bound = self._logger_bound := by
  refine ⟨?_, ?_, ?_, push_state _ _ _ _ _, push_reset _ _ _ _ _,
    push_logger_bound _ _ _ _ _⟩
  · intro h
    simp [buffered_data_writer.push, h]
  · intro h1 h2
    simp [buffered_data_writer.push, h1, h2]
  · intro h1 h2
    simp [buffered_data_writer.push, h1, h2]

/-- Witness for C4: a failing push on the full buffer is the ring buffer push
followed by `xrun()`, and a push in state `Stopping` changes nothing. -/
theorem push_effect_witness :
    scenario.full.self.push 50 0 "pcm" [0, 0, 0, 0] =
      buffered_data_writer.xrun
        { scenario.full.self with
          _buffer := (scenario.full.self._buffer.push 50 0 "pcm" [0, 0, 0, 0]).1 } ∧
    scenario.full.self.stop_cas.push 50 0 "pcm" [0, 0, 0, 0] = scenario.full.self.stop_cas :=
  ⟨(push_effect scenario.full.self 50 0 "pcm" [0, 0, 0, 0]).2.2.1 (by decide) (by decide),
   (push_effect scenario.full.self.stop_cas 50 0 "pcm" [0, 0, 0, 0]).1 (by decide)⟩

/-! ## Reset boundary -/

theorem bind_logger_reset (self : buffered_data_writer) (rc : Int) :
    (self.bind_logger rc)._reset = self._reset := by
  unfold buffered_data_writer.bind_logger; split_ifs <;> rfl

theorem data_ready_exiting (s : system) : s.data_ready.exiting = s.exiting := by
  unfold system.data_ready; split_ifs <;> rfl

theorem bind_logger_state (self : buffered_data_writer) (rc : Int) :
    (self.bind_logger rc)._state = self._state := by
  unfold buffered_data_writer.bind_logger; split_ifs <;> rfl

theorem write_messages_nil (self : buffered_data_writer) :
    self.write_messages [] = ([], [], false) := by
  unfold buffered_data_writer.write_messages
  split
  · rfl
  · rfl

theorem run_append (xs ys : List action) (s : system) :
    s.run (xs ++ ys) = (s.run xs).bind (fun t => t.run ys) := by
  induction xs generalizing s with
  | nil => rfl
  | cons a rest ih =>
    simp only [List.cons_append, run]
    cases s.next a with
    | none => rfl
    | some s1 => simpa using ih s1

theorem write_cycle_run (s : system) (b : data_block_t) (rest : List data_block_t)
    (hh : s.holder = some pc_t.check_xrun) (hb : s.self._buffer.blocks = b :: rest)
    (hreset : s.self._reset = false) :
    s.run scenario.write_cycle =
      some { s with
        self := { s.self with _xrun := false
                              _buffer := { s.self._buffer with blocks := rest } }
        sink := s.sink ++ (if s.self._xrun = true then [sink_call.xrun] else []) ++
          [sink_call.write b]
        holder := some pc_t.check_xrun } := by
  obtain ⟨⟨st, xr, rs, ⟨cap, hd, blocks⟩, lb⟩, socket, sink, holder, created, waiting,
    signalled, exiting, pushed, xruns⟩ := s
  simp only at hh hb hreset
  subst hh hb hreset
  cases xr <;>
    simp [scenario.write_cycle, run, next, system.thread, system.write_reset,
      system.throws, block_ringbuffer.peek_ahead, block_ringbuffer.release]

theorem idle_cycle_run (s : system)
    (hh : s.holder = some pc_t.check_xrun) (hb : s.self._buffer.blocks = [])
    (hx : s.self._xrun = false) (hs : s.self._state ≠ state_t.Stopping)
    (hsock : s.socket = []) :
    s.run scenario.idle_cycle =
      some { s with
        sink := s.sink ++ [sink_call.flush]
        holder := none
        waiting := s.waiting + 1 } := by
  obtain ⟨⟨st, xr, rs, ⟨cap, hd, blocks⟩, lb⟩, socket, sink, holder, created, waiting,
    signalled, exiting, pushed, xruns⟩ := s
  simp only at hh hb hx hs hsock
  subst hh hb hx hsock
  simp [scenario.idle_cycle, run, next, system.thread, system.throws,
    block_ringbuffer.peek_ahead, write_messages_nil, hs]

theorem five_pushes_run (cap hd : Nat) (lb : Bool) (sink0 : List sink_call)
    (pushed0 : List data_block_t) (created0 exiting0 xruns0 : Nat)
    (a b c d e : data_block_t)
    (hfit : block_ringbuffer.framed_size hd a + block_ringbuffer.framed_size hd b +
      block_ringbuffer.framed_size hd c + block_ringbuffer.framed_size hd d ≤ cap)
    (hfull : cap < block_ringbuffer.framed_size hd a + block_ringbuffer.framed_size hd b +
      block_ringbuffer.framed_size hd c + block_ringbuffer.framed_size hd d +
      block_ringbuffer.framed_size hd e) :
    ({ self := ⟨state_t.Running, false, false, ⟨cap, hd, []⟩, lb⟩
       socket := []
       sink := sink0
       holder := none
       created := created0
       waiting := 1
       signalled := 0
       exiting := exiting0
       pushed := pushed0
       xruns := xruns0 } : system).run
      [scenario.push_of a, scenario.push_of b, scenario.push_of c, scenario.push_of d,
        scenario.push_of e, action.data_ready, action.relock] =
    some { self := ⟨state_t.Running, true, false, ⟨cap, hd, [a, b, c, d]⟩, lb⟩
           socket := []
           sink := sink0
           holder := some pc_t.check_xrun
           created := created0
           waiting := 0
           signalled := 0
           exiting := exiting0
           pushed := pushed0 ++ [a, b, c, d]
           xruns := xruns0 + 1 } := by
  have h1 : block_ringbuffer.framed_size hd a ≤ cap := by omega
  have h2 : block_ringbuffer.framed_size hd b ≤ cap - block_ringbuffer.framed_size hd a := by
    omega
  have h3 : block_ringbuffer.framed_size hd c ≤
      cap - (block_ringbuffer.framed_size hd a + block_ringbuffer.framed_size hd b) := by
    omega
  have h4 : block_ringbuffer.framed_size hd d ≤
      cap - (block_ringbuffer.framed_size hd a +
        (block_ringbuffer.framed_size hd b + block_ringbuffer.framed_size hd c)) := by
    omega
  have h5 : ¬ block_ringbuffer.framed_size hd e ≤
      cap - (block_ringbuffer.framed_size hd a +
        (block_ringbuffer.framed_size hd b +
          (block_ringbuffer.framed_size hd c + block_ringbuffer.framed_size hd d))) := by
    omega
  simp [run, next, scenario.push_of, system.push, buffered_data_writer.push,
    block_ringbuffer.push, block_ringbuffer.write_space, block_ringbuffer.read_space,
    h1, h2, h3, h4, h5, buffered_data_writer.xrun, system.data_ready]

/-- C6 as stated fails: with a buffer that holds exactly the four records `A` to `D`
and the consumer blocked in its wait, five pushes and the wake make the consumer call
xrun first and only then write the four records; the sequence claimed (xrun after the
four writes) is not what the sink sees. -/
theorem overrun_reported_before_records :
    (scenario.fresh.run (scenario.boot ++ scenario.idle_cycle)).map (fun s => s.sink) =
      some [sink_call.flush] ∧
    (scenario.fresh.run
        (scenario.boot ++ scenario.idle_cycle ++
          scenario.four_then_overrun scenario.A scenario.B scenario.C scenario.D
            scenario.E)).map (fun s => s.sink) =
      some ([sink_call.flush] ++
        [sink_call.xrun, sink_call.write scenario.A, sink_call.write scenario.B,
          sink_call.write scenario.C, sink_call.write scenario.D, sink_call.flush]) ∧
    (scenario.fresh.run
        (scenario.boot ++ scenario.idle_cycle ++
          scenario.four_then_overrun scenario.A scenario.B scenario.C scenario.D
            scenario.E)).map (fun s => s.sink) ≠
      some ([sink_call.flush] ++
        [sink_call.write scenario.A, sink_call.write scenario.B,
          sink_call.write scenario.C, sink_call.write scenario.D, sink_call.xrun,
          sink_call.flush]) := by
  decide

/-- C6, amended (four-record scenario): a `Running` engine with both flags clear, an
empty ring buffer that has room for the records a, b, c, d together but not for e as
well, no pending log message, and its consumer blocked in the wait.  Pushing a, b, c,
d, e accepts the first four and refuses the fifth with one pending overrun; after the
wake the consumer's sink calls are exactly xrun, write a, write b, write c, write d,
flush, and it blocks again with the buffer empty and the overrun flag clear. -/
theorem four_records_then_overrun (s : system) (a b c d e : data_block_t)
    (hstate : s.self._state = state_t.Running) (hx : s.self._xrun = false)
    (hreset : s.self._reset = false) (hempty : s.self._buffer.blocks = [])
    (hsock : s.socket = [])
    (hwait : s.holder = none ∧ s.waiting = 1 ∧ s.signalled = 0)
    (hfit : block_ringbuffer.framed_size s.self._buffer.header a +
      block_ringbuffer.framed_size s.self._buffer.header b +
      block_ringbuffer.framed_size s.self._buffer.header c +
      block_ringbuffer.framed_size s.self._buffer.header d ≤ s.self._buffer.capacity)
    (hfull : s.self._buffer.capacity <
      block_ringbuffer.framed_size s.self._buffer.header a +
      block_ringbuffer.framed_size s.self._buffer.header b +
      block_ringbuffer.framed_size s.self._buffer.header c +
      block_ringbuffer.framed_size s.self._buffer.header d +
      block_ringbuffer.framed_size s.self._buffer.header e) :
    (s.run [scenario.push_of a, scenario.push_of b, scenario.push_of c,
        scenario.push_of d, scenario.push_of e]).map
        (fun t => (t.pushed, t.self._buffer.blocks, t.self._xrun, t.xruns, t.sink)) =
      some (s.pushed ++ [a, b, c, d], [a, b, c, d], true, s.xruns + 1, s.sink) ∧
    s.run (scenario.four_then_overrun a b c d e) =
      some { s with
        sink := s.sink ++
          [sink_call.xrun, sink_call.write a, sink_call.write b, sink_call.write c,
            sink_call.write d, sink_call.flush]
        pushed := s.pushed ++ [a, b, c, d]
        xruns := s.xruns + 1 } := by
  obtain ⟨⟨st, xr, rs, ⟨cap, hd, blocks⟩, lb⟩, socket, sink, holder, created, waiting,
    signalled, exiting, pushed, xruns⟩ := s
  obtain ⟨hw1, hw2, hw3⟩ := hwait
  simp only at hstate hx hreset hempty hsock hw1 hw2 hw3 hfit hfull
  subst hstate hx hreset hempty hsock hw1 hw2 hw3
  have h5 := five_pushes_run cap hd lb sink pushed created exiting xruns a b c d e hfit hfull
  constructor
  · have h1 : block_ringbuffer.framed_size hd a ≤ cap := by omega
    have h2 : block_ringbuffer.framed_size hd b ≤
        cap - block_ringbuffer.framed_size hd a := by
      omega
    have h3 : block_ringbuffer.framed_size hd c ≤
        cap - (block_ringbuffer.framed_size hd a + block_ringbuffer.framed_size hd b) := by
      omega
    have h4 : block_ringbuffer.framed_size hd d ≤
        cap - (block_ringbuffer.framed_size hd a +
          (block_ringbuffer.framed_size hd b + block_ringbuffer.framed_size hd c)) := by
      omega
    have h6 : ¬ block_ringbuffer.framed_size hd e ≤
        cap - (block_ringbuffer.framed_size hd a +
          (block_ringbuffer.framed_size hd b +
            (block_ringbuffer.framed_size hd c + block_ringbuffer.framed_size hd d))) := by
      omega
    simp [run, next, scenario.push_of, system.push, buffered_data_writer.push,
      block_ringbuffer.push, block_ringbuffer.write_space, block_ringbuffer.read_space,
      h1, h2, h3, h4, h6, buffered_data_writer.xrun]
  · unfold scenario.four_then_overrun
    rw [run_append, run_append, run_append, run_append, run_append, h5]
    simp only [Option.some_bind]
    rw [write_cycle_run _ a [b, c, d] rfl rfl rfl]
    simp only [Option.some_bind]
    rw [write_cycle_run _ b [c, d] rfl rfl rfl]
    simp only [Option.some_bind]
    rw [write_cycle_run _ c [d] rfl rfl rfl]
    simp only [Option.some_bind]
    rw [write_cycle_run _ d [] rfl rfl rfl]
    simp only [Option.some_bind]
    rw [idle_cycle_run _ rfl rfl rfl (by simp) rfl]
    simp

/-- Witness for C6 (amended): the records `A` to `E` of 15 bytes each and a buffer
of 60 bytes, from the state in which the consumer has started and blocked. -/
theorem four_records_then_overrun_witness :
    ((scenario.after scenario.fresh (scenario.boot ++ scenario.idle_cycle)).run
        [scenario.push_of scenario.A, scenario.push_of scenario.B,
          scenario.push_of scenario.C, scenario.push_of scenario.D,
          scenario.push_of scenario.E]).map
        (fun t => (t.pushed, t.self._buffer.blocks, t.self._xrun, t.xruns, t.sink)) =
      some ((scenario.after scenario.fresh (scenario.boot ++ scenario.idle_cycle)).pushed ++
          [scenario.A, scenario.B, scenario.C, scenario.D],
        [scenario.A, scenario.B, scenario.C, scenario.D], true,
        (scenario.after scenario.fresh (scenario.boot ++ scenario.idle_cycle)).xruns + 1,
        (scenario.after scenario.fresh (scenario.boot ++ scenario.idle_cycle)).sink) ∧
    (scenario.after scenario.fresh (scenario.boot ++ scenario.idle_cycle)).run
        (scenario.four_then_overrun scenario.A scenario.B scenario.C scenario.D
          scenario.E) =
      some { scenario.after scenario.fresh (scenario.boot ++ scenario.idle_cycle) with
        sink := (scenario.after scenario.fresh (scenario.boot ++ scenario.idle_cycle)).sink ++
          [sink_call.xrun, sink_call.write scenario.A, sink_call.write scenario.B,
            sink_call.write scenario.C, sink_call.write scenario.D, sink_call.flush]
        pushed :=
          (scenario.after scenario.fresh (scenario.boot ++ scenario.idle_cycle)).pushed ++
            [scenario.A, scenario.B, scenario.C, scenario.D]
        xruns :=
          (scenario.after scenario.fresh (scenario.boot ++ scenario.idle_cycle)).xruns + 1 } :=
  four_records_then_overrun
    (scenario.after scenario.fresh (scenario.boot ++ scenario.idle_cycle))
    scenario.A scenario.B scenario.C scenario.D scenario.E
    (by decide) (by decide) (by decide) (by decide) (by decide) (by decide) (by decide)
    (by decide)

/-! ## Lifecycle calls: start, stop, reset -/

/-- C7 (start fails unless Stopped): when `pthread_create` succeeds (`ret = 0`),
`start()` throws exactly when `_state` is not `Stopped`.  Whenever it throws, whether
for the state or for a failed thread creation, the whole system is as before: state,
both flags, ring buffer, and no consumer thread has been created.  When it returns
normally exactly one thread has been created and nothing else changed. -/
theorem start_error_iff (s : system) (ret : Int) :
    (ret = 0 → ((s.start ret).2.isOk = false ↔ s.self._state ≠ state_t.Stopped)) ∧
    (s.self._state ≠ state_t.Stopped →
      (s.start ret).2 = Except.error "Tried to start already running writer thread") ∧
    (s.self._state = state_t.Stopped → ret ≠ 0 →
      (s.start ret).2 = Except.error "Failed to start writer thread") ∧
    ((s.start ret).2.isOk = false → (s.start ret).1 = s) ∧
    ((s.start ret).2.isOk = true →
      (s.start ret).1 = { s with created := s.created + 1 }) := by
  unfold system.start
  by_cases hs : s.self._state = state_t.Stopped
  · by_cases hr : ret = 0
    · simp [hs, hr, Except.isOk, Except.toBool]
    · simp [hs, hr, Except.isOk, Except.toBool]
  · simp [hs, Except.isOk, Except.toBool]

/-- Witness for C7: `start()` on an engine whose consumer is already running throws
and changes nothing; on a fresh engine it does not throw. -/
theorem start_error_iff_witness :
    ((scenario.full.start 0).2.isOk = false ↔ scenario.full.self._state ≠ state_t.Stopped) ∧
    (scenario.full.start 0).2 =
      Except.error "Tried to start already running writer thread" ∧
    (scenario.fresh.start 1).2 = Except.error "Failed to start writer thread" ∧
    (scenario.full.start 0).1 = scenario.full ∧
    (scenario.fresh.start 0).1 = { scenario.fresh with created := scenario.fresh.created + 1 } :=
  ⟨(start_error_iff scenario.full 0).1 rfl,
   (start_error_iff scenario.full 0).2.1 (by decide),
   (start_error_iff scenario.fresh 1).2.2.1 (by decide) (by decide),
   (start_error_iff scenario.full 0).2.2.2.1 (by decide),
   (start_error_iff scenario.fresh 0).2.2.2.2 (by decide)⟩

/-- C8 (state after start), evaluated at the failing interleaving, in which the
spawned thread has not yet run when `start()` returns: on a fresh engine `start()`
returns normally and `_state` is still `Stopped`; a second `start()` issued
immediately also returns normally (a second thread is created), and a `stop()` issued
immediately leaves the state `Stopped`. -/
theorem start_leaves_state_stopped :
    (scenario.fresh.start 0).2.isOk = true ∧
    (scenario.fresh.start 0).1.self._state = state_t.Stopped ∧
    ((scenario.fresh.start 0).1.start 0).2.isOk = true ∧
    ((scenario.fresh.start 0).1.start 0).1.created = 2 ∧
    (scenario.fresh.start 0).1.stop.self._state = state_t.Stopped := by
  decide

/-- C9 (stop): `stop()` changes `_state` exactly when it was `Running`, and then to
`Stopping`; in `Stopped` and `Stopping` the state stays.  In every state the overrun
flag, the reset flag, the ring buffer and the sink calls are unchanged.  A second
`stop()` leaves the engine's variables as the first did; the whole system is the same
too when at most one consumer thread is blocked in the wait (the wake of the second
call then finds nobody to wake). -/
theorem stop_effect (s : system) :
    (s.self._state = state_t.Running → s.stop.self._state = state_t.Stopping) ∧
    (s.self._state ≠ state_t.Running → s.stop.self._state = s.self._state) ∧
    (s.stop.self._state ≠ s.self._state ↔ s.self._state = state_t.Running) ∧
    s.stop.self._xrun = s.self._xrun ∧
    s.stop.self._reset = s.self._reset ∧
    s.stop.self._buffer = s.self._buffer ∧
    s.stop.sink = s.sink ∧
    s.stop.stop.self = s.stop.self ∧
    (s.waiting ≤ 1 → s.stop.stop = s.stop) := by
  have hself : s.stop.self = s.self.stop_cas := by
    simp [system.stop, data_ready_self]
  have hidem : s.self.stop_cas.stop_cas = s.self.stop_cas := by
    unfold buffered_data_writer.stop_cas
    split_ifs <;> simp_all
  refine ⟨?_, ?_, ?_, ?_, ?_, ?_, ?_, ?_, ?_⟩
  · intro h
    rw [hself, stop_cas_state, if_pos h]
  · intro h
    rw [hself, stop_cas_state, if_neg h]
  · rw [hself, stop_cas_state]
    split_ifs with h
    · simp [h]
    · simp [h]
  · rw [hself, stop_cas_xrun]
  · rw [hself, stop_cas_reset]
  · rw [hself, stop_cas_buffer]
  · simp [system.stop, data_ready_sink]
  · have h2 : s.stop.stop.self = s.stop.self.stop_cas := by
      simp [system.stop, data_ready_self]
    rw [h2, hself, hidem]
  · intro hw
    obtain ⟨self, socket, sink, holder, created, waiting, signalled, exiting, pushed,
      xruns⟩ := s
    simp only at hw hidem
    cases holder with
    | some pc => simp [system.stop, system.data_ready, hidem]
    | none =>
      have : waiting = 0 ∨ waiting = 1 := by omega
      rcases this with rfl | rfl <;> simp [system.stop, system.data_ready, hidem]

/-- Witness for C9: `stop()` on a running engine with one waiting consumer. -/
theorem stop_effect_witness :
    (scenario.after scenario.fresh (scenario.boot ++ scenario.idle_cycle)).stop.self._state =
      state_t.Stopping ∧
    scenario.fresh.stop.self._state = scenario.fresh.self._state ∧
    (scenario.after scenario.fresh (scenario.boot ++ scenario.idle_cycle)).stop.stop =
      (scenario.after scenario.fresh (scenario.boot ++ scenario.idle_cycle)).stop :=
  ⟨(stop_effect (scenario.after scenario.fresh (scenario.boot ++ scenario.idle_cycle))).1
      (by decide),
   (stop_effect scenario.fresh).2.1 (by decide),
   (stop_effect
      (scenario.after scenario.fresh (scenario.boot ++ scenario.idle_cycle))).2.2.2.2.2.2.2.2
      (by decide)⟩

/-- C10 (reset): `reset()` sets the reset flag when `_state` is `Running` and changes
nothing in `Stopped` and `Stopping`; it never changes the state, the overrun flag, the
ring buffer or `_logger_bound`, and a second `reset()` changes nothing more. -/
theorem reset_effect (self : buffered_data_writer) :
    (self._state = state_t.Running → self.reset._reset = true) ∧
    (self._state ≠ state_t.Running → self.reset = self) ∧
    self.reset._state = self._state ∧
    self.reset._xrun = self._xrun ∧
    self.reset._buffer = self._buffer ∧
    self.reset._logger_bound = self._logger_bound ∧
    self.reset.reset = self.reset := by
  refine ⟨?_, ?_, reset_state self, reset_xrun self, reset_buffer self,
    reset_logger_bound self, ?_⟩
  · intro h
    rw [reset_reset, if_pos h]
  · intro h
    simp [buffered_data_writer.reset, h]
  · unfold buffered_data_writer.reset
    split_ifs <;> simp_all

/-- Witness for C10: on the running engine of the scenario the flag becomes true; on
a fresh (stopped) engine nothing changes. -/
theorem reset_effect_witness :
    scenario.full.self.reset._reset = true ∧
    scenario.fresh.self.reset = scenario.fresh.self :=
  ⟨(reset_effect scenario.full.self).1 (by decide),
   (reset_effect scenario.fresh.self).2.1 (by decide)⟩

/-- The start-up statements discard a pending reset: a `reset()` accepted in state
`Running` before the consumer thread has cleared the flags is lost, and both records
are written with no `close_entry` at all. -/
theorem startup_discards_reset :
    (scenario.fresh.run [action.start 0, action.lock, action.step, scenario.push_of scenario.A,
        action.reset]).map (fun s => (s.self._state, s.self._reset)) =
      some (state_t.Running, true) ∧
    (scenario.fresh.run scenario.startup_reset_run).map (fun s => s.sink) =
      some [sink_call.write scenario.A, sink_call.write scenario.B] := by
  decide

/-! ## Buffer size requests -/

/-- What `request_buffer_size` does inside the precondition of `resize`: a request
that does not exceed the capacity changes nothing and returns the capacity; a larger
request on a buffer without unread records sets the capacity to the request and
returns it. -/
theorem request_buffer_size_defined (self : buffered_data_writer) (bytes : Nat) :
    (bytes ≤ self._buffer.size →
      self.request_buffer_size bytes = some (self, self._buffer.size)) ∧
    (self._buffer.size < bytes → self._buffer.blocks = [] →
      self.request_buffer_size bytes =
        some ({ self with _buffer := { self._buffer with capacity := bytes } }, bytes)) := by
  unfold buffered_data_writer.request_buffer_size
  constructor
  · intro h
    have : ¬ bytes > self._buffer.size := by omega
    rw [if_neg this]
  · intro h hb
    rw [if_pos h]
    simp [block_ringbuffer.resize, hb, block_ringbuffer.size]

/-- C11 (request_buffer_size), evaluated at the failing interleaving: the consumer is
blocked in the wait, so `_lock` is free, and the producer pushes `A`, which needs no
lock.  `request_buffer_size(100)` then acquires the lock at once and calls
`resize(100)` while `A` is unread, outside the precondition of `resize` ("no unread
data outstanding"): the call has no defined result, so nothing guarantees that the
unread record is the same afterwards. -/
theorem resize_with_unread_record :
    (scenario.fresh.run scenario.resize_race).map
        (fun s => (s.holder, s.self._buffer.blocks, s.self._buffer.size)) =
      some (none, [scenario.A], 60) ∧
    (scenario.after scenario.fresh scenario.resize_race).self._buffer.resize 100 = none ∧
    (scenario.after scenario.fresh scenario.resize_race).self.request_buffer_size 100 =
      none ∧
    scenario.fresh.run (scenario.resize_race ++ [action.request_buffer_size 100]) = none := by
  decide

/-! ## The log drain -/

theorem recv_parts_frames (m : List String) (hm : m ≠ []) (acc : List String)
    (rest : List (String × Bool)) :
    buffered_data_writer.recv_parts (buffered_data_writer.frames_of m ++ rest) acc =
      (some (acc ++ m), rest) := by
  induction m generalizing acc with
  | nil => exact absurd rfl hm
  | cons part tail ih =>
    cases tail with
    | nil => simp [buffered_data_writer.frames_of, buffered_data_writer.recv_parts]
    | cons next more =>
      have h := ih (by simp) (acc ++ [part])
      simp only [buffered_data_writer.frames_of, List.cons_append,
        buffered_data_writer.recv_parts, if_true]
      simpa using h

theorem log_of_short (m : List String) (h : ¬ m.length ≥ 3) :
    buffered_data_writer.log_of m = none ∧ buffered_data_writer.unparsable m = false := by
  simp [buffered_data_writer.log_of, buffered_data_writer.unparsable, h]

theorem log_of_parsed (m : List String) (t : String) (h : m.length ≥ 3)
    (ht : buffered_data_writer.from_iso_string (m.getD 1 "") = some t) :
    buffered_data_writer.log_of m = some (sink_call.log t (m.getD 0 "") (m.getD 2 "")) ∧
    buffered_data_writer.unparsable m = false := by
  unfold buffered_data_writer.log_of buffered_data_writer.unparsable
  rw [if_pos h, ht]
  simp

theorem log_of_unparsed (m : List String) (h : m.length ≥ 3)
    (ht : buffered_data_writer.from_iso_string (m.getD 1 "") = none) :
    buffered_data_writer.log_of m = none ∧ buffered_data_writer.unparsable m = true := by
  unfold buffered_data_writer.log_of buffered_data_writer.unparsable
  rw [if_pos h, ht]
  simp [h]

theorem write_messages_loop_cons (n : Nat) (m : List String) (hm : m ≠ [])
    (rest : List (List String)) (calls : List sink_call) :
    buffered_data_writer.write_messages_loop (n + 1)
        (buffered_data_writer.socket_of (m :: rest)) calls =
      if m.length ≥ 3 then
        match buffered_data_writer.from_iso_string (m.getD 1 "") with
        | some timestamp =>
          buffered_data_writer.write_messages_loop n (buffered_data_writer.socket_of rest)
            (calls ++ [sink_call.log timestamp (m.getD 0 "") (m.getD 2 "")])
        | none => (buffered_data_writer.socket_of rest, calls, true)
      else
        buffered_data_writer.write_messages_loop n (buffered_data_writer.socket_of rest)
          calls := by
  rw [buffered_data_writer.write_messages_loop]
  simp only [buffered_data_writer.socket_of]
  rw [recv_parts_frames m hm []]
  simp only [List.nil_append]

theorem write_messages_loop_bound (n : Nat) (msgs : List (List String))
    (hm : ∀ m ∈ msgs, m ≠ []) (calls : List sink_call) :
    ∃ j, j ≤ n ∧
      (buffered_data_writer.write_messages_loop n
        (buffered_data_writer.socket_of msgs) calls).1 =
          buffered_data_writer.socket_of (msgs.drop j) ∧
      (buffered_data_writer.write_messages_loop n
        (buffered_data_writer.socket_of msgs) calls).2.1 =
          calls ++ (msgs.take j).filterMap buffered_data_writer.log_of ∧
      ((buffered_data_writer.write_messages_loop n
        (buffered_data_writer.socket_of msgs) calls).2.2 = false →
          msgs.drop j = msgs.drop n ∧ msgs.take j = msgs.take n) := by
  induction n generalizing msgs calls with
  | zero => exact ⟨0, le_refl _, by simp [buffered_data_writer.write_messages_loop]⟩
  | succ n ih =>
    cases msgs with
    | nil =>
      exact ⟨0, by omega, by
        simp [buffered_data_writer.write_messages_loop, buffered_data_writer.socket_of,
          buffered_data_writer.recv_parts]⟩
    | cons m rest =>
      have hne : m ≠ [] := hm m (List.mem_cons_self _ _)
      have hrest : ∀ x ∈ rest, x ≠ [] := fun x hx => hm x (List.mem_cons_of_mem _ hx)
      rw [write_messages_loop_cons n m hne rest calls]
      by_cases h3 : m.length ≥ 3
      · rw [if_pos h3]
        cases hp : buffered_data_writer.from_iso_string (m.getD 1 "") with
        | none =>
          refine ⟨1, by omega, rfl, ?_, ?_⟩
          · simp [(log_of_unparsed m h3 hp).1]
          · intro h
            cases h
        | some t =>
          obtain ⟨j, hj, h1, h2, h4⟩ := ih rest hrest
            (calls ++ [sink_call.log t (m.getD 0 "") (m.getD 2 "")])
          refine ⟨j + 1, by omega, by simpa using h1, ?_, ?_⟩
          · simp only []
            rw [h2]
            simp [(log_of_parsed m t h3 hp).1]
          · intro h
            have := h4 h
            simpa using this
      · rw [if_neg h3]
        obtain ⟨j, hj, h1, h2, h4⟩ := ih rest hrest calls
        refine ⟨j + 1, by omega, by simpa using h1, ?_, ?_⟩
        · rw [h2]
          simp [(log_of_short m h3).1]
        · intro h
          have := h4 h
          simpa using this

theorem write_messages_loop_throw (pre : List (List String)) (bad : List String)
    (post : List (List String)) (n : Nat) (calls : List sink_call)
    (hne : ∀ m ∈ pre, m ≠ [])
    (hp : ∀ m ∈ pre, buffered_data_writer.unparsable m = false)
    (hbad : buffered_data_writer.unparsable bad = true) (hlen : pre.length < n) :
    buffered_data_writer.write_messages_loop n
        (buffered_data_writer.socket_of (pre ++ bad :: post)) calls =
      (buffered_data_writer.socket_of post,
        calls ++ pre.filterMap buffered_data_writer.log_of, true) := by
  induction pre generalizing n calls with
  | nil =>
    obtain ⟨k, rfl⟩ : ∃ k, n = k + 1 := ⟨n - 1, by simp at hlen; omega⟩
    have hboth : bad.length ≥ 3 ∧
        buffered_data_writer.from_iso_string (bad.getD 1 "") = none := by
      simp only [buffered_data_writer.unparsable, Bool.and_eq_true, decide_eq_true_eq,
        Option.isNone_iff_eq_none] at hbad
      exact hbad
    have h3 : bad.length ≥ 3 := hboth.1
    have hbne : bad ≠ [] := by
      intro h
      rw [h] at h3
      simp at h3
    have hq : buffered_data_writer.from_iso_string (bad.getD 1 "") = none := hboth.2
    simp only [List.nil_append]
    rw [write_messages_loop_cons k bad hbne post calls, if_pos h3, hq]
    simp
  | cons m rest ih =>
    obtain ⟨k, rfl⟩ : ∃ k, n = k + 1 := ⟨n - 1, by simp at hlen; omega⟩
    have hmne : m ≠ [] := hne m (List.mem_cons_self _ _)
    have hpm : buffered_data_writer.unparsable m = false := hp m (List.mem_cons_self _ _)
    have hne' : ∀ x ∈ rest, x ≠ [] := fun x hx => hne x (List.mem_cons_of_mem _ hx)
    have hp' : ∀ x ∈ rest, buffered_data_writer.unparsable x = false :=
      fun x hx => hp x (List.mem_cons_of_mem _ hx)
    have hlen' : rest.length < k := by simp at hlen; omega
    simp only [List.cons_append]
    rw [write_messages_loop_cons k m hmne (rest ++ bad :: post) calls]
    by_cases h3 : m.length ≥ 3
    · rw [if_pos h3]
      cases hq : buffered_data_writer.from_iso_string (m.getD 1 "") with
      | none =>
        rw [(log_of_unparsed m h3 hq).2] at hpm
        cases hpm
      | some t =>
        simp only []
        rw [ih k _ hne' hp' hlen']
        simp [(log_of_parsed m t h3 hq).1]
    · rw [if_neg h3, ih k _ hne' hp' hlen']
      simp [(log_of_short m h3).1]

theorem filterMap_length_le {α β : Type} (f : α → Option β) (xs : List α) :
    (xs.filterMap f).length ≤ xs.length := by
  induction xs with
  | nil => simp
  | cons x rest ih =>
    simp only [List.filterMap_cons]
    split
    · simp only [List.length_cons]; omega
    · simp only [List.length_cons]; omega

/-- Unparsable timestamp: when the first message of at least three parts whose second
part `from_iso_string` rejects is among the first 100, the messages before it are
handled as usual, that message is removed without a log call, the exception leaves
`write_messages`, and the messages behind it stay on the socket. -/
theorem log_drain_throw (self : buffered_data_writer)
    (pre post : List (List String)) (bad : List String)
    (hb : self._logger_bound = true) (hne : ∀ m ∈ pre, m ≠ [])
    (hpre : ∀ m ∈ pre, buffered_data_writer.unparsable m = false)
    (hlen : pre.length < 100) (hbad : buffered_data_writer.unparsable bad = true) :
    self.write_messages (buffered_data_writer.socket_of (pre ++ bad :: post)) =
      (buffered_data_writer.socket_of post,
        pre.filterMap buffered_data_writer.log_of, true) ∧
    (∀ source timestamp text more,
      buffered_data_writer.from_iso_string timestamp = none →
      buffered_data_writer.unparsable (source :: timestamp :: text :: more) = true) := by
  refine ⟨?_, ?_⟩
  · unfold buffered_data_writer.write_messages
    simp only [hb, Bool.not_true, Bool.false_eq_true, if_false]
    have h100 : buffered_data_writer.max_messages = 100 := rfl
    rw [h100, write_messages_loop_throw pre bad post _ [] hne hpre hbad hlen]
    simp
  · intro source timestamp text more ht
    exact (log_of_unparsed (source :: timestamp :: text :: more) (by simp)
      (by simpa using ht)).2

/-- An instance of the unparsable timestamp: the drain removes the one-part message
and the message whose second part is not a time, makes no log call, and is left by the
exception with the third message still on the socket. -/
theorem bad_timestamp_leaves_drain :
    scenario.bound.write_messages
        (buffered_data_writer.socket_of
          [["only"], scenario.bad_message, ["jill", "20130101T000001", "started"]]) =
      (buffered_data_writer.socket_of [["jill", "20130101T000001", "started"]], [], true) := by
  decide

/-- C13 (bounded drain): with complete messages pending, one call of the log drain
with the logger bound removes the first j messages for some j of at most 100, in
arrival order, leaves the others on the socket, and makes at most 100 sink calls, one
for each removed message that is logged, in the same order; unless the drain is left
by the exception of `from_iso_string`, j is 100 (or all messages when fewer are
pending).  With the logger not bound it leaves the socket as it is and makes no sink
call. -/
theorem log_drain_bounded (self : buffered_data_writer) (msgs : List (List String))
    (hm : ∀ m ∈ msgs, m ≠ []) :
    (self._logger_bound = true →
      ∃ j, j ≤ 100 ∧
        (self.write_messages (buffered_data_writer.socket_of msgs)).1 =
          buffered_data_writer.socket_of (msgs.drop j) ∧
        (self.write_messages (buffered_data_writer.socket_of msgs)).2.1 =
          (msgs.take j).filterMap buffered_data_writer.log_of ∧
        (self.write_messages (buffered_data_writer.socket_of msgs)).2.1.length ≤ 100 ∧
        ((self.write_messages (buffered_data_writer.socket_of msgs)).2.2 = false →
          (self.write_messages (buffered_data_writer.socket_of msgs)).1 =
            buffered_data_writer.socket_of (msgs.drop 100) ∧
          (self.write_messages (buffered_data_writer.socket_of msgs)).2.1 =
            (msgs.take 100).filterMap buffered_data_writer.log_of)) ∧
    (self._logger_bound = false →
      self.write_messages (buffered_data_writer.socket_of msgs) =
        (buffered_data_writer.socket_of msgs, [], false)) := by
  constructor
  · intro hb
    have hw : self.write_messages (buffered_data_writer.socket_of msgs) =
        buffered_data_writer.write_messages_loop 100
          (buffered_data_writer.socket_of msgs) [] := by
      unfold buffered_data_writer.write_messages
      simp [hb, buffered_data_writer.max_messages]
    obtain ⟨j, hj, h1, h2, h3⟩ := write_messages_loop_bound 100 msgs hm []
    rw [hw]
    refine ⟨j, hj, h1, by simpa using h2, ?_, ?_⟩
    · rw [h2]
      have ha := filterMap_length_le buffered_data_writer.log_of (msgs.take j)
      have hb2 : (msgs.take j).length ≤ j := by simp
      simp only [List.nil_append]
      omega
    · intro hf
      obtain ⟨hd, ht⟩ := h3 hf
      rw [h1, h2, hd, ht]
      simp
  · intro hb
    unfold buffered_data_writer.write_messages
    simp [hb]

/-- Witness for C13: a backlog of 102 three-part messages; the bound engine takes
at most 100 of them, the unbound engine takes none. -/
theorem log_drain_bounded_witness :
    (∃ j, j ≤ 100 ∧
      (scenario.bound.write_messages
        (buffered_data_writer.socket_of
          (List.replicate 102 ["jill", "20130101T000001", "started"]))).1 =
        buffered_data_writer.socket_of
          ((List.replicate 102 ["jill", "20130101T000001", "started"]).drop j) ∧
      (scenario.bound.write_messages
        (buffered_data_writer.socket_of
          (List.replicate 102 ["jill", "20130101T000001", "started"]))).2.1 =
        ((List.replicate 102 ["jill", "20130101T000001", "started"]).take j).filterMap
          buffered_data_writer.log_of ∧
      (scenario.bound.write_messages
        (buffered_data_writer.socket_of
          (List.replicate 102 ["jill", "20130101T000001", "started"]))).2.1.length ≤ 100 ∧
      ((scenario.bound.write_messages
        (buffered_data_writer.socket_of
          (List.replicate 102 ["jill", "20130101T000001", "started"]))).2.2 = false →
        (scenario.bound.write_messages
          (buffered_data_writer.socket_of
            (List.replicate 102 ["jill", "20130101T000001", "started"]))).1 =
          buffered_data_writer.socket_of
            ((List.replicate 102 ["jill", "20130101T000001", "started"]).drop 100) ∧
        (scenario.bound.write_messages
          (buffered_data_writer.socket_of
            (List.replicate 102 ["jill", "20130101T000001", "started"]))).2.1 =
          ((List.replicate 102 ["jill", "20130101T000001", "started"]).take 100).filterMap
            buffered_data_writer.log_of)) ∧
    scenario.fresh.self.write_messages
        (buffered_data_writer.socket_of
          (List.replicate 102 ["jill", "20130101T000001", "started"])) =
      (buffered_data_writer.socket_of
        (List.replicate 102 ["jill", "20130101T000001", "started"]), [], false) :=
  ⟨(log_drain_bounded scenario.bound
      (List.replicate 102 ["jill", "20130101T000001", "started"])
      (by simp)).1 (by decide),
   (log_drain_bounded scenario.fresh.self
      (List.replicate 102 ["jill", "20130101T000001", "started"])
      (by simp)).2 (by decide)⟩

/-! ## State edges and flag clearing -/

/-- C14 (state edges), evaluated at the failing interleaving: `start()` is called
twice before the first thread has stored `Running`, so both calls succeed and two
consumer threads exist.  After `stop()` the state is `Stopping`; the second thread
then acquires the lock and its first statement stores `Running` (edge
Stopping->Running).  In the other continuation the first thread leaves the loop, the
second thread stores `Running`, and the first thread's final statement stores
`Stopped` (edge Running->Stopped). -/
theorem double_start_breaks_state_cycle :
    (scenario.fresh.run scenario.double_start).map (fun s => (s.self._state, s.created)) =
      some (state_t.Stopping, 1) ∧
    (scenario.fresh.run (scenario.double_start ++ [action.lock, action.step])).map
        (fun s => s.self._state) = some state_t.Running ∧
    (scenario.fresh.run
        (scenario.double_start ++ scenario.first_exits_second_starts)).map
        (fun s => (s.self._state, s.exiting)) = some (state_t.Running, 1) ∧
    (scenario.fresh.run
        (scenario.double_start ++ scenario.first_exits_second_starts ++
          [action.store_stopped])).map
        (fun s => s.self._state) = some state_t.Stopped := by
  decide

/-- C15 as stated fails: a push that fails while the engine is `Stopped` sets the
overrun flag; the consumer thread's start-up statements then clear it, and the sink
never receives an xrun call for it. -/
theorem startup_discards_overrun :
    (scenario.small.run [scenario.push_of scenario.A]).map
        (fun s => (s.self._state, s.self._xrun)) = some (state_t.Stopped, true) ∧
    (scenario.small.run
        ([scenario.push_of scenario.A] ++ scenario.boot ++ scenario.idle_cycle)).map
        (fun s => (s.self._xrun, s.sink)) = some (false, [sink_call.flush]) := by
  decide

theorem thread_clears_xrun (s : system) (pc : pc_t) (h1 : s.self._xrun = true)
    (h2 : (s.thread pc).self._xrun = false) :
    (pc = pc_t.check_xrun ∧ (s.thread pc).sink = s.sink ++ [sink_call.xrun]) ∨
    (pc = pc_t.clear_xrun ∧ (s.thread pc).sink = s.sink) := by
  cases pc <;> simp only [system.thread, system.write_reset] at h2 ⊢
  case check_xrun => left; simp [h1]
  case clear_xrun => right; simp
  case peek => split at h2 <;> simp [h1] at h2
  case check_state => split at h2 <;> simp [h1] at h2
  case write_reset hdr => split at h2 <;> simp [h1] at h2
  all_goals simp [h1] at h2

theorem thread_clears_reset (s : system) (pc : pc_t) (h1 : s.self._reset = true)
    (h2 : (s.thread pc).self._reset = false) :
    (∃ hdr, pc = pc_t.write_reset hdr ∧
      (s.thread pc).sink = s.sink ++ [sink_call.close_entry]) ∨
    (pc = pc_t.clear_reset ∧ (s.thread pc).sink = s.sink) := by
  cases pc <;> simp only [system.thread, system.write_reset] at h2 ⊢
  case write_reset hdr => left; exact ⟨hdr, rfl, by simp [h1]⟩
  case clear_reset => right; simp
  case check_xrun => split at h2 <;> simp [h1] at h2
  case peek => split at h2 <;> simp [h1] at h2
  case check_state => split at h2 <;> simp [h1] at h2
  all_goals simp [h1] at h2

theorem bind_logger_xrun (self : buffered_data_writer) (rc : Int) :
    (self.bind_logger rc)._xrun = self._xrun := by
  unfold buffered_data_writer.bind_logger; split_ifs <;> rfl

theorem flags_kept_outside_step (s s' : system) (a : action) (ha : a ≠ action.step)
    (hn : s.next a = some s') :
    (s.self._xrun = true → s'.self._xrun = true) ∧
    (s.self._reset = true → s'.self._reset = true) := by
  cases a with
  | step => exact absurd rfl ha
  | push time dtype id data =>
    simp only [next, Option.some.injEq] at hn
    subst hn
    refine ⟨fun h => ?_, fun h => by simpa [system.push, push_reset] using h⟩
    simp only [system.push, push_xrun]
    split
    · rfl
    · exact h
  | data_ready =>
    simp only [next, Option.some.injEq] at hn
    subst hn
    simp [data_ready_self]
  | xrun =>
    simp only [next, Option.some.injEq] at hn
    subst hn
    exact ⟨fun _ => by simp [system.xrun, xrun_xrun],
      fun h => by simpa [system.xrun, xrun_reset] using h⟩
  | stop =>
    simp only [next, Option.some.injEq] at hn
    subst hn
    simp [system.stop, data_ready_self, stop_cas_xrun, stop_cas_reset]
  | reset =>
    simp only [next, Option.some.injEq] at hn
    subst hn
    refine ⟨fun h => by simpa [system.reset, reset_xrun] using h, fun h => ?_⟩
    simp only [system.reset, reset_reset]
    split
    · rfl
    · exact h
  | start ret =>
    simp only [next, Option.some.injEq] at hn
    subst hn
    simp [start_self]
  | request_buffer_size bytes =>
    obtain ⟨r, hrq, hn⟩ := next_request_some s s' bytes hn
    subst hn
    have hfr := request_buffer_size_some s.self bytes r hrq
    simp [hfr.2.1, hfr.2.2.1]
  | bind_logger rc =>
    simp only [next, Option.some.injEq] at hn
    subst hn
    simp [bind_logger_xrun, bind_logger_reset]
  | send_log frames =>
    simp only [next, Option.some.injEq] at hn
    subst hn
    simp
  | lock =>
    simp only [next] at hn
    split at hn
    · simp only [Option.some.injEq] at hn
      subst hn
      simp
    · cases hn
  | relock =>
    simp only [next] at hn
    split at hn
    · simp only [Option.some.injEq] at hn
      subst hn
      simp
    · cases hn
  | wake =>
    simp only [next] at hn
    split at hn
    · simp only [Option.some.injEq] at hn
      subst hn
      simp
    · cases hn
  | store_stopped =>
    simp only [next] at hn
    split at hn
    · simp only [Option.some.injEq] at hn
      subst hn
      simp
    · cases hn

/-- C15, amended (who clears the flags): in every step of a run, a change of the
overrun flag from true to false is made by the consumer thread that holds the lock,
either by the compare-and-swap at the head of its loop, together with one call of the
sink's xrun, or by its start-up statement `_xrun = false`, with no sink call;
a change of the reset flag from true to false is made by that thread either by the
compare-and-swap in `write`, together with one call of the sink's close_entry, or by
its start-up statement `_reset = false`, with no sink call.  No call of a member
function from another thread clears a flag. -/
theorem flags_cleared_by_consumer (s s' : system) (a : action)
    (hn : s.next a = some s') :
    (s.self._xrun = true → s'.self._xrun = false →
      a = action.step ∧
      ((s.holder = some pc_t.check_xrun ∧ s'.sink = s.sink ++ [sink_call.xrun]) ∨
        (s.holder = some pc_t.clear_xrun ∧ s'.sink = s.sink))) ∧
    (s.self._reset = true → s'.self._reset = false →
      a = action.step ∧
      ((∃ hdr, s.holder = some (pc_t.write_reset hdr) ∧
          s'.sink = s.sink ++ [sink_call.close_entry]) ∨
        (s.holder = some pc_t.clear_reset ∧ s'.sink = s.sink))) := by
  by_cases ha : a = action.step
  · subst ha
    cases hh : s.holder with
    | none => simp [next, hh] at hn
    | some pc =>
      replace hn := step_result s s' pc hh hn
      subst hn
      constructor
      · intro h1 h2
        refine ⟨rfl, ?_⟩
        rcases thread_clears_xrun s pc h1 h2 with ⟨hp, hs⟩ | ⟨hp, hs⟩
        · exact Or.inl ⟨by rw [hp], hs⟩
        · exact Or.inr ⟨by rw [hp], hs⟩
      · intro h1 h2
        refine ⟨rfl, ?_⟩
        rcases thread_clears_reset s pc h1 h2 with ⟨hdr, hp, hs⟩ | ⟨hp, hs⟩
        · exact Or.inl ⟨hdr, by rw [hp], hs⟩
        · exact Or.inr ⟨by rw [hp], hs⟩
  · have hk := flags_kept_outside_step s s' a ha hn
    constructor
    · intro h1 h2
      rw [hk.1 h1] at h2
      cases h2
    · intro h1 h2
      rw [hk.2 h1] at h2
      cases h2

/-- Witness for C15 (amended): with the buffer full and a failed push pending, the
check at the head of the loop clears the overrun flag and calls the sink's xrun. -/
theorem flags_cleared_by_consumer_witness :
    action.step = action.step ∧
    (((scenario.full.push 50 0 "pcm" [0, 0, 0, 0]).holder = some pc_t.check_xrun ∧
        (scenario.after (scenario.full.push 50 0 "pcm" [0, 0, 0, 0]) [action.step]).sink =
          (scenario.full.push 50 0 "pcm" [0, 0, 0, 0]).sink ++ [sink_call.xrun]) ∨
      ((scenario.full.push 50 0 "pcm" [0, 0, 0, 0]).holder = some pc_t.clear_xrun ∧
        (scenario.after (scenario.full.push 50 0 "pcm" [0, 0, 0, 0]) [action.step]).sink =
          (scenario.full.push 50 0 "pcm" [0, 0, 0, 0]).sink)) :=
  (flags_cleared_by_consumer (scenario.full.push 50 0 "pcm" [0, 0, 0, 0])
    (scenario.after (scenario.full.push 50 0 "pcm" [0, 0, 0, 0]) [action.step])
    action.step (by decide)).1 (by decide) (by decide)

/-! ## The `Ringbuffer` and `Prebuffer` wrappers -/

theorem power_of_two_loop_ge (sz fuel p : Nat) (h : sz ≤ fuel + p) :
    sz ≤ 2 ^ power_of_two_loop sz fuel p := by
  induction fuel generalizing p with
  | zero =>
    simp only [power_of_two_loop]
    have : p < 2 ^ p := Nat.lt_two_pow p
    omega
  | succ fuel ih =>
    simp only [power_of_two_loop]
    split
    · exact ih (p + 1) (by omega)
    · omega

theorem jack_ringbuffer_create_size (sz : Nat) : sz ≤ (jack_ringbuffer_create sz).size :=
  power_of_two_loop_ge sz sz 1 (by omega)

theorem mod_wrap (x n : Nat) (h1 : n ≤ x) (h2 : x < 2 * n) : x % n = x - n := by
  rw [Nat.mod_eq_sub_mod h1]
  exact Nat.mod_eq_of_lt (by omega)

theorem jack_read_advance_space (rb : jack_ringbuffer_t) (cnt : Nat)
    (hn : 0 < rb.size) (hr : rb.read_ptr < rb.size) (hw : rb.write_ptr < rb.size)
    (hc : cnt ≤ jack_ringbuffer_read_space rb) :
    jack_ringbuffer_read_space (jack_ringbuffer_read_advance rb cnt) =
      jack_ringbuffer_read_space rb - cnt := by
  obtain ⟨buf, w, r, n⟩ := rb
  simp only [jack_ringbuffer_read_space, jack_ringbuffer_read_advance] at *
  by_cases hwr : w > r
  · rw [if_pos hwr] at hc ⊢
    have h1 : (r + cnt) % n = r + cnt := Nat.mod_eq_of_lt (by omega)
    rw [h1]
    by_cases h2 : w > r + cnt
    · rw [if_pos h2]; omega
    · rw [if_neg h2]
      have : w + n - (r + cnt) = n := by omega
      rw [this, Nat.mod_self]; omega
  · rw [if_neg hwr] at hc ⊢
    by_cases heq : w = r
    · subst heq
      have h0 : (w + n - w) % n = 0 := by
        have : w + n - w = n := by omega
        rw [this, Nat.mod_self]
      rw [h0] at hc ⊢
      have hc0 : cnt = 0 := by omega
      subst hc0
      have h1 : (w + 0) % n = w := Nat.mod_eq_of_lt (by omega)
      rw [h1, if_neg (by omega), h0]
    · have hlt : w < r := by omega
      have h0 : (w + n - r) % n = w + n - r := Nat.mod_eq_of_lt (by omega)
      rw [h0] at hc ⊢
      by_cases h3 : r + cnt < n
      · have h1 : (r + cnt) % n = r + cnt := Nat.mod_eq_of_lt h3
        rw [h1, if_neg (by omega)]
        have : (w + n - (r + cnt)) % n = w + n - (r + cnt) := Nat.mod_eq_of_lt (by omega)
        rw [this]; omega
      · have h1 : (r + cnt) % n = r + cnt - n := mod_wrap _ _ (by omega) (by omega)
        rw [h1]
        by_cases h4 : w > r + cnt - n
        · rw [if_pos h4]; omega
        · rw [if_neg h4]
          have : w + n - (r + cnt - n) = n := by omega
          rw [this, Nat.mod_self]; omega

/-- C16 (advance): in every valid state of a `Ringbuffer`, `advance(n)` returns
`read_space()` when `n = 0` and `min(n, read_space())` otherwise; afterwards
`read_space()` is smaller by exactly the returned amount, the state is still valid,
the write index is untouched, and the read index has moved over no more bytes than
were readable: the readable bytes decrease by the returned amount times `sizeof(T)`,
so the read index never passes the write index. -/
theorem advance_effect (self : Ringbuffer) (nframes : Nat) (hv : self.valid) :
    (nframes = 0 → (self.advance nframes).2 = self.read_space) ∧
    (0 < nframes → (self.advance nframes).2 = min nframes self.read_space) ∧
    (self.advance nframes).1.read_space = self.read_space - (self.advance nframes).2 ∧
    (self.advance nframes).2 * self.sizeof_T ≤ jack_ringbuffer_read_space self._rb ∧
    jack_ringbuffer_read_space (self.advance nframes).1._rb =
      jack_ringbuffer_read_space self._rb - (self.advance nframes).2 * self.sizeof_T ∧
    (self.advance nframes).1._rb.write_ptr = self._rb.write_ptr ∧
    (self.advance nframes).1.valid := by
  obtain ⟨⟨k, hk⟩, hlen, hr, hw, hs⟩ := hv
  have hn : 0 < self._rb.size := by rw [hk]; exact Nat.two_pow_pos k
  have hle : (self.advance nframes).2 ≤ self.read_space := by
    simp only [Ringbuffer.advance]
    split
    · exact le_refl _
    · exact Nat.min_le_left _ _
  have hbytes : (self.advance nframes).2 * self.sizeof_T ≤
      jack_ringbuffer_read_space self._rb :=
    le_trans (Nat.mul_le_mul_right _ hle) (Nat.div_mul_le_self _ _)
  have hrb : (self.advance nframes).1._rb =
      jack_ringbuffer_read_advance self._rb ((self.advance nframes).2 * self.sizeof_T) := rfl
  have hspace := jack_read_advance_space self._rb _ hn hr hw hbytes
  refine ⟨?_, ?_, ?_, hbytes, ?_, ?_, ?_⟩
  · intro h0
    simp [Ringbuffer.advance, h0]
  · intro hpos
    have : nframes ≠ 0 := by omega
    simp [Ringbuffer.advance, this, Nat.min_comm]
  · have hsz : (self.advance nframes).1.sizeof_T = self.sizeof_T := rfl
    rw [Ringbuffer.read_space.eq_1 (self.advance nframes).1, hrb, hspace, hsz,
      Nat.mul_comm, Nat.sub_mul_div _ _ _ (by rw [Nat.mul_comm]; exact hbytes)]
    rfl
  · rw [hrb, hspace]
  · rw [hrb]; rfl
  · rw [Ringbuffer.valid, hrb]
    exact ⟨⟨k, hk⟩, hlen, Nat.mod_lt _ hn, hw, hs⟩

/-- Witness for C16: on the wrapped buffer holding five items, `advance(0)` returns
5 and `advance(7)` returns 5 as well. -/
theorem advance_effect_witness :
    (scenario.wrapped.advance 0).2 = scenario.wrapped.read_space ∧
    (scenario.wrapped.advance 7).2 = min 7 scenario.wrapped.read_space ∧
    (scenario.wrapped.advance 7).1.read_space =
      scenario.wrapped.read_space - (scenario.wrapped.advance 7).2 :=
  ⟨(advance_effect scenario.wrapped 0
      ⟨⟨3, by decide⟩, by decide, by decide, by decide, by decide⟩).1 rfl,
   (advance_effect scenario.wrapped 7
      ⟨⟨3, by decide⟩, by decide, by decide, by decide, by decide⟩).2.1 (by decide),
   (advance_effect scenario.wrapped 7
      ⟨⟨3, by decide⟩, by decide, by decide, by decide, by decide⟩).2.2.1⟩

/-- C17 (Prebuffer push), evaluated at the failing input: a `Prebuffer` of four
one-byte items gets a JACK ring buffer of four bytes, of which three are usable.
Pushing four items into the empty prebuffer returns 3, not 4, and stores the first
three items of the input, not the last four; pushing five items stores the second to
fourth.  The same happens with four-byte items (`Prebuffer<float>(4)`): the call
returns 3 and leaves 15 of the 16 input bytes in the buffer. -/
theorem prebuffer_push_short :
    (Prebuffer.construct 4 1).toRingbuffer.write_space = 3 ∧
    ((Prebuffer.construct 4 1).push [1, 2, 3, 4] 4).2 = 3 ∧
    ((Prebuffer.construct 4 1).push [1, 2, 3, 4] 4).1.toRingbuffer.read_space = 3 ∧
    ((Prebuffer.construct 4 1).push [1, 2, 3, 4] 4).1.toRingbuffer._rb.buf = [1, 2, 3, 0] ∧
    ((Prebuffer.construct 4 1).push [1, 2, 3, 4, 5] 5).2 = 3 ∧
    ((Prebuffer.construct 4 1).push [1, 2, 3, 4, 5] 5).1.toRingbuffer._rb.buf =
      [2, 3, 4, 0] ∧
    ((Prebuffer.construct 4 4).push (List.range 16) 4).2 = 3 ∧
    jack_ringbuffer_read_space
      ((Prebuffer.construct 4 4).push (List.range 16) 4).1.toRingbuffer._rb = 15 := by
  decide

/-- C18 (generator push), evaluated at the failing input: on an empty ring buffer of
eight one-byte items the generator is offered 7 frames and stores 3.  The call
returns 3, but the write index has advanced by 6, because the loop advances it by the
running total `nsamp` in both passes; `read_space()` is 6 afterwards, not 0 + 3.
With four-byte items the generator is offered the free bytes as a frame count: 15,
where `write_space()` is 3. -/
theorem generator_push_double_advance :
    (Ringbuffer.construct 8 1).read_space = 0 ∧
    (jack_ringbuffer_get_write_vector (Ringbuffer.construct 8 1)._rb).1.len = 7 ∧
    ((Ringbuffer.construct 8 1).push_fun scenario.three).2 = 3 ∧
    ((Ringbuffer.construct 8 1).push_fun scenario.three).1._rb.write_ptr = 6 ∧
    ((Ringbuffer.construct 8 1).push_fun scenario.three).1.read_space = 6 ∧
    (Ringbuffer.construct 4 4).write_space = 3 ∧
    (jack_ringbuffer_get_write_vector (Ringbuffer.construct 4 4)._rb).1.len = 15 := by
  decide

/-! ## The idle branch of the consumer loop -/

theorem run_append_some (xs ys : List action) (s s' : system)
    (h : s.run (xs ++ ys) = some s') : ∃ t, s.run xs = some t ∧ t.run ys = some s' := by
  rw [run_append] at h
  cases hx : s.run xs with
  | none => simp [hx] at h
  | some t => exact ⟨t, rfl, by simpa [hx] using h⟩

theorem run_step_some (s s' : system) (pc : pc_t) (hh : s.holder = some pc)
    (h : s.run [action.step] = some s') : s' = s.thread pc := by
  simp only [run] at h
  cases hn : s.next action.step with
  | none => simp [hn] at h
  | some t =>
    simp only [hn, Option.some_bind, Option.some.injEq] at h
    rw [← h]
    exact (step_result s t pc hh hn).symm

theorem env_next (s s' : system) (a : action) (pc : pc_t) (hh : s.holder = some pc)
    (ha : a ≠ action.step) (hn : s.next a = some s') :
    s'.holder = some pc ∧ s'.sink = s.sink ∧
    (a ≠ action.stop → s.self._state ≠ state_t.Stopping →
      s'.self._state ≠ state_t.Stopping) := by
  cases a with
  | step => exact absurd rfl ha
  | stop =>
    simp only [next, Option.some.injEq] at hn
    subst hn
    exact ⟨by simpa [system.stop, data_ready_holder] using hh,
      by simp [system.stop, data_ready_sink], fun h => absurd rfl h⟩
  | push time dtype id data =>
    simp only [next, Option.some.injEq] at hn
    subst hn
    exact ⟨hh, rfl, fun _ h => by simpa [system.push, push_state] using h⟩
  | data_ready =>
    simp only [next, Option.some.injEq] at hn
    subst hn
    exact ⟨by simpa [data_ready_holder] using hh, data_ready_sink s,
      fun _ h => by simpa [data_ready_self] using h⟩
  | xrun =>
    simp only [next, Option.some.injEq] at hn
    subst hn
    exact ⟨hh, rfl, fun _ h => by simpa [system.xrun, xrun_state] using h⟩
  | reset =>
    simp only [next, Option.some.injEq] at hn
    subst hn
    exact ⟨hh, rfl, fun _ h => by simpa [system.reset, reset_state] using h⟩
  | start ret =>
    simp only [next, Option.some.injEq] at hn
    subst hn
    exact ⟨by simpa [start_holder] using hh, start_sink s ret,
      fun _ h => by simpa [start_self] using h⟩
  | bind_logger rc =>
    simp only [next, Option.some.injEq] at hn
    subst hn
    exact ⟨hh, rfl, fun _ h => by simpa [bind_logger_state] using h⟩
  | send_log frames =>
    simp only [next, Option.some.injEq] at hn
    subst hn
    exact ⟨hh, rfl, fun _ h => h⟩
  | request_buffer_size bytes =>
    simp [next, hh] at hn
  | lock =>
    simp [next, hh] at hn
  | relock =>
    simp [next, hh] at hn
  | wake =>
    simp only [next] at hn
    split at hn
    · simp only [Option.some.injEq] at hn
      subst hn
      exact ⟨hh, rfl, fun _ h => h⟩
    · cases hn
  | store_stopped =>
    simp only [next] at hn
    split at hn
    · simp only [Option.some.injEq] at hn
      subst hn
      exact ⟨hh, rfl, fun _ _ => by simp⟩
    · cases hn

theorem env_run (e : List action) (s s' : system) (pc : pc_t) (hh : s.holder = some pc)
    (he : ∀ a ∈ e, a ≠ action.step) (hr : s.run e = some s') :
    s'.holder = some pc ∧ s'.sink = s.sink ∧
    ((∀ a ∈ e, a ≠ action.stop) → s.self._state ≠ state_t.Stopping →
      s'.self._state ≠ state_t.Stopping) := by
  induction e generalizing s with
  | nil =>
    simp only [run, Option.some.injEq] at hr
    subst hr
    exact ⟨hh, rfl, fun _ h => h⟩
  | cons a rest ih =>
    simp only [run] at hr
    cases hn : s.next a with
    | none => simp [hn] at hr
    | some s1 =>
      rw [hn] at hr
      have h1 := env_next s s1 a pc hh (he a (List.mem_cons_self _ _)) hn
      have h2 := ih s1 h1.1 (fun b hb => he b (List.mem_cons_of_mem _ hb)) hr
      refine ⟨h2.1, by rw [h2.2.1, h1.2.1], fun hs h => ?_⟩
      exact h2.2.2 (fun b hb => hs b (List.mem_cons_of_mem _ hb))
        (h1.2.2 (hs a (List.mem_cons_self _ _)) h)

theorem env_then_step (e rest : List action) (s s' : system) (pc : pc_t)
    (hh : s.holder = some pc) (he : ∀ a ∈ e, a ≠ action.step)
    (hr : s.run (e ++ [action.step] ++ rest) = some s') :
    ∃ t, s.run e = some t ∧ t.holder = some pc ∧ t.sink = s.sink ∧
      ((∀ a ∈ e, a ≠ action.stop) → s.self._state ≠ state_t.Stopping →
        t.self._state ≠ state_t.Stopping) ∧
      (t.thread pc).run rest = some s' := by
  rw [List.append_assoc] at hr
  obtain ⟨t, ht, hrest⟩ := run_append_some e _ s s' hr
  obtain ⟨h1, h2, h3⟩ := env_run e s t pc hh he ht
  refine ⟨t, ht, h1, h2, h3, ?_⟩
  simp only [List.cons_append, List.nil_append, run] at hrest
  cases hn : t.next action.step with
  | none => simp [hn] at hrest
  | some t' =>
    rw [hn] at hrest
    rw [step_result t t' pc h1 hn]
    simpa using hrest

theorem env_then_step_next (e rest : List action) (s s' t : system) (pc : pc_t)
    (hh : s.holder = some pc) (he : ∀ a ∈ e, a ≠ action.step)
    (hr : s.run (e ++ [action.step] ++ rest) = some s') (ht : s.run e = some t) :
    t.next action.step = some (t.thread pc) := by
  rw [List.append_assoc] at hr
  obtain ⟨t2, ht2, hrest⟩ := run_append_some e _ s s' hr
  have heq : t2 = t := by
    rw [ht] at ht2
    exact (Option.some.inj ht2).symm
  subst heq
  have h1 := (env_run e s t2 pc hh he ht).1
  simp only [List.cons_append, List.nil_append, run] at hrest
  cases hn : t2.next action.step with
  | none => simp [hn] at hrest
  | some t' => rw [step_result t2 t' pc h1 hn]

/-- The branch of the loop taken when `peek_ahead` found no record, under any
interleaving with other threads: after the log drain the thread tests `_state`; when
it is not `Stopping` the sink gets the log calls and one flush and the thread blocks,
when it is `Stopping` the sink gets the log calls and one close_entry and the thread
releases the lock on its way out. -/
theorem idle_branch (s s' : system) (e0 e1 e2 e3 : List action)
    (hh : s.holder = some pc_t.messages)
    (h0 : ∀ a ∈ e0, a ≠ action.step) (h1 : ∀ a ∈ e1, a ≠ action.step)
    (h2 : ∀ a ∈ e2, a ≠ action.step) (h3 : ∀ a ∈ e3, a ≠ action.step)
    (hr : s.run (interleaved e0 e1 e2 e3) = some s') :
    ∃ t logs, s.run (e0 ++ [action.step] ++ e1) = some t ∧
      t.holder = some pc_t.check_state ∧ t.sink = s.sink ++ logs ∧
      (∀ c ∈ logs, c.is_log = true) ∧
      (((∀ a ∈ e0, a ≠ action.stop) → (∀ a ∈ e1, a ≠ action.stop) →
          s.self._state ≠ state_t.Stopping → t.self._state ≠ state_t.Stopping)) ∧
      ((t.self._state ≠ state_t.Stopping ∧
          s'.sink = s.sink ++ logs ++ [sink_call.flush] ∧ s'.holder = none ∧
          0 < s'.waiting) ∨
        (t.self._state = state_t.Stopping ∧
          s'.sink = s.sink ++ logs ++ [sink_call.close_entry] ∧ s'.holder = none ∧
          0 < s'.exiting)) := by
  unfold interleaved at hr
  have hr' : s.run (e0 ++ [action.step] ++
      (e1 ++ [action.step] ++ (e2 ++ [action.step] ++ (e3 ++ [action.step])))) = some s' := by
    simpa [List.append_assoc] using hr
  obtain ⟨t0, ht0, hh0, hs0, hst0, hr0⟩ := env_then_step e0 _ s s' _ hh h0 hr'
  have hm : (t0.thread pc_t.messages).holder = some pc_t.check_state := rfl
  have hmsink : (t0.thread pc_t.messages).sink =
      s.sink ++ (t0.self.write_messages t0.socket).2.1 := by
    simp [system.thread, hs0]
  have hmstate : (t0.thread pc_t.messages).self._state = t0.self._state := rfl
  obtain ⟨t1, ht1, hh1, hs1, hst1, hr1⟩ := env_then_step e1 _ _ s' _ hm h1 hr0
  refine ⟨t1, (t0.self.write_messages t0.socket).2.1, ?_, hh1, by rw [hs1, hmsink],
    write_messages_logs _ _, ?_, ?_⟩
  · have hnx := env_then_step_next e0 _ s s' t0 _ hh h0 hr' ht0
    rw [run_append, run_append, ht0]
    simp [run, hnx, ht1]
  · intro hn0 hn1 hne
    exact hst1 hn1 (by rw [hmstate]; exact hst0 hn0 hne)
  · by_cases hstop : t1.self._state = state_t.Stopping
    · right
      have hc : (t1.thread pc_t.check_state).holder = some pc_t.close := by
        simp [system.thread, hstop]
      have hcs : (t1.thread pc_t.check_state).sink = t1.sink := by
        simp [system.thread, hstop]
      obtain ⟨t2, _, hh2, hs2, _, hr2⟩ := env_then_step e2 _ _ s' _ hc h2 hr1
      have hu : (t2.thread pc_t.close).holder = some pc_t.unlock := rfl
      have hus : (t2.thread pc_t.close).sink = t2.sink ++ [sink_call.close_entry] := rfl
      have hr2' : (t2.thread pc_t.close).run (e3 ++ [action.step] ++ []) = some s' := by
        simpa using hr2
      obtain ⟨t3, _, hh3, hs3, _, hr3⟩ := env_then_step e3 _ _ s' _ hu h3 hr2'
      simp only [run, Option.some.injEq] at hr3
      subst hr3
      refine ⟨hstop, ?_, rfl, ?_⟩
      · have hlast : (t3.thread pc_t.unlock).sink = t3.sink := rfl
        rw [hlast, hs3, hus, hs2, hcs, hs1, hmsink]
      · simp [system.thread]
    · left
      have hc : (t1.thread pc_t.check_state).holder = some pc_t.flush := by
        simp [system.thread, hstop]
      have hcs : (t1.thread pc_t.check_state).sink = t1.sink := by
        simp [system.thread, hstop]
      obtain ⟨t2, _, hh2, hs2, _, hr2⟩ := env_then_step e2 _ _ s' _ hc h2 hr1
      have hu : (t2.thread pc_t.flush).holder = some pc_t.cond_wait := rfl
      have hus : (t2.thread pc_t.flush).sink = t2.sink ++ [sink_call.flush] := rfl
      have hr2' : (t2.thread pc_t.flush).run (e3 ++ [action.step] ++ []) = some s' := by
        simpa using hr2
      obtain ⟨t3, _, hh3, hs3, _, hr3⟩ := env_then_step e3 _ _ s' _ hu h3 hr2'
      simp only [run, Option.some.injEq] at hr3
      subst hr3
      refine ⟨hstop, ?_, rfl, ?_⟩
      · have hlast : (t3.thread pc_t.cond_wait).sink = t3.sink := rfl
        rw [hlast, hs3, hus, hs2, hcs, hs1, hmsink]
      · simp [system.thread]

theorem holder_change (s s' : system) (a : action) (hn : s.next a = some s') :
    (a = action.step ∧ ∃ pc, s.holder = some pc ∧ s' = s.thread pc) ∨
    (a ≠ action.step ∧ s'.exiting ≤ s.exiting ∧ s'.sink = s.sink ∧
      (s'.holder = s.holder ∨
        (s.holder = none ∧
          (s'.holder = some pc_t.set_running ∨ s'.holder = some pc_t.check_xrun)))) := by
  cases a with
  | step =>
    left
    cases hh : s.holder with
    | none => simp [next, hh] at hn
    | some pc =>
      replace hn := step_result s s' pc hh hn
      exact ⟨rfl, pc, rfl, hn.symm⟩
  | push time dtype id data =>
    simp only [next, Option.some.injEq] at hn
    subst hn
    exact Or.inr ⟨by simp, le_refl _, rfl, Or.inl rfl⟩
  | data_ready =>
    simp only [next, Option.some.injEq] at hn
    subst hn
    exact Or.inr ⟨by simp, by rw [data_ready_exiting], data_ready_sink s,
      Or.inl (data_ready_holder s)⟩
  | xrun =>
    simp only [next, Option.some.injEq] at hn
    subst hn
    exact Or.inr ⟨by simp, le_refl _, rfl, Or.inl rfl⟩
  | stop =>
    simp only [next, Option.some.injEq] at hn
    subst hn
    exact Or.inr ⟨by simp, by simp [system.stop, data_ready_exiting],
      by simp [system.stop, data_ready_sink],
      Or.inl (by simp [system.stop, data_ready_holder])⟩
  | reset =>
    simp only [next, Option.some.injEq] at hn
    subst hn
    exact Or.inr ⟨by simp, le_refl _, rfl, Or.inl rfl⟩
  | start ret =>
    simp only [next, Option.some.injEq] at hn
    subst hn
    refine Or.inr ⟨by simp, ?_, start_sink s ret, Or.inl (start_holder s ret)⟩
    unfold system.start
    split_ifs <;> simp
  | bind_logger rc =>
    simp only [next, Option.some.injEq] at hn
    subst hn
    exact Or.inr ⟨by simp, le_refl _, rfl, Or.inl rfl⟩
  | send_log frames =>
    simp only [next, Option.some.injEq] at hn
    subst hn
    exact Or.inr ⟨by simp, le_refl _, rfl, Or.inl rfl⟩
  | request_buffer_size bytes =>
    obtain ⟨r, hrq, hn⟩ := next_request_some s s' bytes hn
    subst hn
    have hfr := request_buffer_size_some s.self bytes r hrq
    exact Or.inr ⟨by simp, le_refl _, rfl, Or.inl rfl⟩
  | lock =>
    simp only [next] at hn
    split at hn
    · rename_i hc
      simp only [Option.some.injEq] at hn
      subst hn
      exact Or.inr ⟨by simp, le_refl _, rfl, Or.inr ⟨hc.1, Or.inl rfl⟩⟩
    · cases hn
  | relock =>
    simp only [next] at hn
    split at hn
    · rename_i hc
      simp only [Option.some.injEq] at hn
      subst hn
      exact Or.inr ⟨by simp, le_refl _, rfl, Or.inr ⟨hc.1, Or.inr rfl⟩⟩
    · cases hn
  | wake =>
    simp only [next] at hn
    split at hn
    · simp only [Option.some.injEq] at hn
      subst hn
      exact Or.inr ⟨by simp, le_refl _, rfl, Or.inl rfl⟩
    · cases hn
  | store_stopped =>
    simp only [next] at hn
    split at hn
    · simp only [Option.some.injEq] at hn
      subst hn
      exact Or.inr ⟨by simp, by simp, rfl, Or.inl rfl⟩
    · cases hn

theorem thread_arrival (s : system) (pc : pc_t) :
    ((s.thread pc).holder = some pc_t.cond_wait →
      pc = pc_t.flush ∧ (s.thread pc).sink = s.sink ++ [sink_call.flush]) ∧
    ((s.thread pc).holder = some pc_t.close →
      pc = pc_t.check_state ∧ s.self._state = state_t.Stopping) ∧
    ((s.thread pc).holder = some pc_t.check_state → pc = pc_t.messages) ∧
    ((s.thread pc).holder = some pc_t.messages →
      pc = pc_t.peek ∧ s.self._buffer.peek_ahead = none) ∧
    ((s.thread pc).holder = some pc_t.unlock →
      pc = pc_t.close ∧ (s.thread pc).sink = s.sink ++ [sink_call.close_entry]) ∧
    (s.exiting < (s.thread pc).exiting → pc = pc_t.unlock ∧ (s.thread pc).sink = s.sink) := by
  cases pc <;> simp only [system.thread, system.write_reset]
  case check_xrun => split <;> simp
  case peek =>
    cases hp : s.self._buffer.peek_ahead <;> simp
  case check_state =>
    by_cases h : s.self._state = state_t.Stopping <;> simp [h]
  case write_reset hdr => split <;> simp
  all_goals simp

/-- C19 (idle flush): in a cycle in which `peek_ahead` found no record and the state
the consumer then reads is `Running`, whatever other threads do between its
statements, the consumer's sink calls are the log calls of the drain followed by
exactly one flush, after which it blocks in the wait with the lock released.  And in
any step of any run, the consumer arrives at the wait only from the flush statement:
it never blocks without having flushed immediately before. -/
theorem idle_flush_before_block (s s' t u u' : system) (e0 e1 e2 e3 : List action)
    (a : action)
    (hh : s.holder = some pc_t.messages)
    (h0 : ∀ x ∈ e0, x ≠ action.step) (h1 : ∀ x ∈ e1, x ≠ action.step)
    (h2 : ∀ x ∈ e2, x ≠ action.step) (h3 : ∀ x ∈ e3, x ≠ action.step)
    (hr : s.run (interleaved e0 e1 e2 e3) = some s')
    (ht : s.run (e0 ++ [action.step] ++ e1) = some t)
    (hst : t.self._state = state_t.Running)
    (hn : u.next a = some u') (hw : u'.holder = some pc_t.cond_wait)
    (hu : u.holder ≠ some pc_t.cond_wait) :
    (∃ logs, (∀ c ∈ logs, c.is_log = true) ∧
      s'.sink = s.sink ++ logs ++ [sink_call.flush] ∧ s'.holder = none ∧ 0 < s'.waiting) ∧
    (a = action.step ∧ u.holder = some pc_t.flush ∧
      u'.sink = u.sink ++ [sink_call.flush]) := by
  constructor
  · obtain ⟨t', logs, ht', _, _, hlogs, _, hbranch⟩ :=
      idle_branch s s' e0 e1 e2 e3 hh h0 h1 h2 h3 hr
    have heq : t' = t := by
      rw [ht] at ht'
      exact (Option.some.inj ht').symm
    subst heq
    rcases hbranch with ⟨_, hs, hhold, hwait⟩ | ⟨hstop, _⟩
    · exact ⟨logs, hlogs, hs, hhold, hwait⟩
    · rw [hst] at hstop
      cases hstop
  · rcases holder_change u u' a hn with ⟨ha, pc, hpc, hu'⟩ | ⟨_, _, _, hsame | ⟨_, h | h⟩⟩
    · subst hu'
      obtain ⟨hp, hs⟩ := (thread_arrival u pc).1 hw
      exact ⟨ha, by rw [hpc, hp], hs⟩
    · rw [hsame] at hw
      exact absurd hw hu
    · rw [h] at hw
      cases hw
    · rw [h] at hw
      cases hw

/-- Witness for C19: the consumer has found the buffer empty; another thread calls
`xrun()` and `reset()` between its statements. -/
theorem idle_flush_before_block_witness :
    (∃ logs, (∀ c ∈ logs, c.is_log = true) ∧
      (scenario.after scenario.at_messages
          (interleaved [action.xrun] [] [action.reset] [])).sink =
        scenario.at_messages.sink ++ logs ++ [sink_call.flush] ∧
      (scenario.after scenario.at_messages
          (interleaved [action.xrun] [] [action.reset] [])).holder = none ∧
      0 < (scenario.after scenario.at_messages
          (interleaved [action.xrun] [] [action.reset] [])).waiting) ∧
    (action.step = action.step ∧
      (scenario.after scenario.at_messages
          [action.step, action.step]).holder = some pc_t.flush ∧
      (scenario.after scenario.at_messages [action.step, action.step, action.step]).sink =
        (scenario.after scenario.at_messages [action.step, action.step]).sink ++
          [sink_call.flush]) :=
  idle_flush_before_block scenario.at_messages
    (scenario.after scenario.at_messages (interleaved [action.xrun] [] [action.reset] []))
    (scenario.after scenario.at_messages ([action.xrun] ++ [action.step] ++ []))
    (scenario.after scenario.at_messages [action.step, action.step])
    (scenario.after scenario.at_messages [action.step, action.step, action.step])
    [action.xrun] [] [action.reset] [] action.step
    (by decide) (by decide) (by decide) (by decide) (by decide) (by decide) (by decide)
    (by decide) (by decide) (by decide) (by decide)

/-- Path to the loop exit: the thread reaches the exit only through the state test with
`_state = Stopping`, which it reaches only after the log drain, which it reaches only
when `peek_ahead` found no record.  In such a cycle, whatever other threads do between
its statements, its sink calls are the log calls of the drain followed by exactly one
close_entry (no flush), after which it releases the lock and makes no further sink
call.  The store `_state = Stopped` can only be executed by a thread that has
released the lock on its way out, so after that thread's close_entry, and it makes no
sink call. -/
theorem exit_closes_entry (s s' t u u' : system) (e0 e1 e2 e3 : List action) (a : action)
    (hh : s.holder = some pc_t.messages)
    (h0 : ∀ x ∈ e0, x ≠ action.step) (h1 : ∀ x ∈ e1, x ≠ action.step)
    (h2 : ∀ x ∈ e2, x ≠ action.step) (h3 : ∀ x ∈ e3, x ≠ action.step)
    (hr : s.run (interleaved e0 e1 e2 e3) = some s')
    (ht : s.run (e0 ++ [action.step] ++ e1) = some t)
    (hst : t.self._state = state_t.Stopping)
    (hn : u.next a = some u') :
    (∃ logs, (∀ c ∈ logs, c.is_log = true) ∧
      s'.sink = s.sink ++ logs ++ [sink_call.close_entry] ∧ s'.holder = none ∧
      0 < s'.exiting) ∧
    (u'.holder = some pc_t.close → u.holder ≠ some pc_t.close →
      a = action.step ∧ u.holder = some pc_t.check_state ∧
        u.self._state = state_t.Stopping) ∧
    (u'.holder = some pc_t.check_state → u.holder ≠ some pc_t.check_state →
      a = action.step ∧ u.holder = some pc_t.messages) ∧
    (u'.holder = some pc_t.messages → u.holder ≠ some pc_t.messages →
      a = action.step ∧ u.holder = some pc_t.peek ∧ u.self._buffer.peek_ahead = none) ∧
    (u'.holder = some pc_t.unlock → u.holder ≠ some pc_t.unlock →
      a = action.step ∧ u.holder = some pc_t.close ∧
        u'.sink = u.sink ++ [sink_call.close_entry]) ∧
    (u.exiting < u'.exiting →
      a = action.step ∧ u.holder = some pc_t.unlock ∧ u'.sink = u.sink) ∧
    (a = action.store_stopped →
      0 < u.exiting ∧ u'.self._state = state_t.Stopped ∧ u'.sink = u.sink) := by
  refine ⟨?_, ?_, ?_, ?_, ?_, ?_, ?_⟩
  · obtain ⟨t', logs, ht', _, _, hlogs, _, hbranch⟩ :=
      idle_branch s s' e0 e1 e2 e3 hh h0 h1 h2 h3 hr
    have heq : t' = t := by
      rw [ht] at ht'
      exact (Option.some.inj ht').symm
    subst heq
    rcases hbranch with ⟨hne, _⟩ | ⟨_, hs, hhold, hex⟩
    · exact absurd hst hne
    · exact ⟨logs, hlogs, hs, hhold, hex⟩
  · intro hw hu
    rcases holder_change u u' a hn with ⟨ha, pc, hpc, hu'⟩ | ⟨_, _, _, hsame | ⟨_, h | h⟩⟩
    · subst hu'
      obtain ⟨hp, hs⟩ := (thread_arrival u pc).2.1 hw
      exact ⟨ha, by rw [hpc, hp], hs⟩
    · rw [hsame] at hw
      exact absurd hw hu
    · rw [h] at hw
      cases hw
    · rw [h] at hw
      cases hw
  · intro hw hu
    rcases holder_change u u' a hn with ⟨ha, pc, hpc, hu'⟩ | ⟨_, _, _, hsame | ⟨_, h | h⟩⟩
    · subst hu'
      have hp := (thread_arrival u pc).2.2.1 hw
      exact ⟨ha, by rw [hpc, hp]⟩
    · rw [hsame] at hw
      exact absurd hw hu
    · rw [h] at hw
      cases hw
    · rw [h] at hw
      cases hw
  · intro hw hu
    rcases holder_change u u' a hn with ⟨ha, pc, hpc, hu'⟩ | ⟨_, _, _, hsame | ⟨_, h | h⟩⟩
    · subst hu'
      obtain ⟨hp, hs⟩ := (thread_arrival u pc).2.2.2.1 hw
      exact ⟨ha, by rw [hpc, hp], hs⟩
    · rw [hsame] at hw
      exact absurd hw hu
    · rw [h] at hw
      cases hw
    · rw [h] at hw
      cases hw
  · intro hw hu
    rcases holder_change u u' a hn with ⟨ha, pc, hpc, hu'⟩ | ⟨_, _, _, hsame | ⟨_, h | h⟩⟩
    · subst hu'
      obtain ⟨hp, hs⟩ := (thread_arrival u pc).2.2.2.2.1 hw
      exact ⟨ha, by rw [hpc, hp], hs⟩
    · rw [hsame] at hw
      exact absurd hw hu
    · rw [h] at hw
      cases hw
    · rw [h] at hw
      cases hw
  · intro hlt
    rcases holder_change u u' a hn with ⟨ha, pc, hpc, hu'⟩ | ⟨_, hle, _, _⟩
    · subst hu'
      obtain ⟨hp, hs⟩ := (thread_arrival u pc).2.2.2.2.2 hlt
      exact ⟨ha, by rw [hpc, hp], hs⟩
    · omega
  · intro ha
    subst ha
    simp only [next] at hn
    split at hn
    · rename_i hpos
      simp only [Option.some.injEq] at hn
      subst hn
      exact ⟨hpos, rfl, rfl⟩
    · cases hn

/-- Instance of the exit path: the consumer has found the buffer empty and `stop()` is
called before its log drain; it then closes the entry and releases the lock. -/
theorem exit_closes_entry_witness :
    (∃ logs, (∀ c ∈ logs, c.is_log = true) ∧
      (scenario.after scenario.at_messages (interleaved [action.stop] [] [] [])).sink =
        scenario.at_messages.sink ++ logs ++ [sink_call.close_entry] ∧
      (scenario.after scenario.at_messages (interleaved [action.stop] [] [] [])).holder =
        none ∧
      0 < (scenario.after scenario.at_messages (interleaved [action.stop] [] [] [])).exiting) ∧
    (action.step = action.step ∧
      (scenario.after scenario.at_messages [action.stop, action.step]).holder =
        some pc_t.check_state ∧
      (scenario.after scenario.at_messages [action.stop, action.step]).self._state =
        state_t.Stopping) :=
  ⟨(exit_closes_entry scenario.at_messages
      (scenario.after scenario.at_messages (interleaved [action.stop] [] [] []))
      (scenario.after scenario.at_messages ([action.stop] ++ [action.step] ++ []))
      (scenario.after scenario.at_messages [action.stop, action.step])
      (scenario.after scenario.at_messages [action.stop, action.step, action.step])
      [action.stop] [] [] [] action.step
      (by decide) (by decide) (by decide) (by decide) (by decide) (by decide) (by decide)
      (by decide) (by decide)).1,
   (exit_closes_entry scenario.at_messages
      (scenario.after scenario.at_messages (interleaved [action.stop] [] [] []))
      (scenario.after scenario.at_messages ([action.stop] ++ [action.step] ++ []))
      (scenario.after scenario.at_messages [action.stop, action.step])
      (scenario.after scenario.at_messages [action.stop, action.step, action.step])
      [action.stop] [] [] [] action.step
      (by decide) (by decide) (by decide) (by decide) (by decide) (by decide) (by decide)
      (by decide) (by decide)).2.1 (by decide) (by decide)⟩

/-! ## Overrun reports under interleaving -/

theorem xrun_calls_grows (s s' : system) (a : action) (hn : s.next a = some s') :
    xrun_calls s.sink ≤ xrun_calls s'.sink := by
  obtain ⟨ext, he⟩ := sink_grows_next s s' a hn
  rw [he, xrun_calls_append]
  omega

theorem signal_kept_thread (s : system) (pc : pc_t) (hpc : pc ≠ pc_t.clear_xrun) :
    xrun_calls s.sink + s.self._xrun.toNat ≤
      xrun_calls (s.thread pc).sink + (s.thread pc).self._xrun.toNat := by
  cases pc <;> simp only [system.thread, system.write_reset]
  case clear_xrun => exact absurd rfl hpc
  case check_xrun =>
    split
    · rename_i h
      simp [xrun_calls_append, xrun_calls, h]
    · simp
  case peek => split <;> simp
  case messages => simp [xrun_calls_append, xrun_calls_write_messages]
  case check_state => split <;> simp
  case write_reset hdr => split <;> simp [xrun_calls_append, xrun_calls]
  all_goals simp [xrun_calls_append, xrun_calls]

theorem signal_kept_next (s s' : system) (a : action) (hn : s.next a = some s')
    (hfree : ¬ (a = action.step ∧ s.holder = some pc_t.clear_xrun)) :
    xrun_calls s.sink + s.self._xrun.toNat ≤
      xrun_calls s'.sink + s'.self._xrun.toNat := by
  by_cases ha : a = action.step
  · subst ha
    cases hh : s.holder with
    | none => simp [next, hh] at hn
    | some pc =>
      replace hn := step_result s s' pc hh hn
      subst hn
      exact signal_kept_thread s pc (fun h => hfree ⟨rfl, by rw [hh, h]⟩)
  · have hcalls := xrun_calls_grows s s' a hn
    have hflag := (flags_kept_outside_step s s' a ha hn).1
    cases hx : s.self._xrun with
    | false => simp; omega
    | true =>
      rw [hflag hx]
      simp
      omega

theorem signal_kept_run (acts : List action) (s s' : system) (hr : s.run acts = some s')
    (hfree : s.no_startup_clear acts = true) :
    xrun_calls s.sink + s.self._xrun.toNat ≤
      xrun_calls s'.sink + s'.self._xrun.toNat := by
  induction acts generalizing s with
  | nil =>
    simp only [run, Option.some.injEq] at hr
    subst hr
    exact le_refl _
  | cons a rest ih =>
    simp only [run] at hr
    cases hn : s.next a with
    | none => simp [hn] at hr
    | some s1 =>
      rw [hn] at hr
      simp only [no_startup_clear, hn, Bool.and_eq_true, Bool.not_eq_true',
        Bool.and_eq_false_imp, decide_eq_true_eq, decide_eq_false_iff_not] at hfree
      have h1 := signal_kept_next s s1 a hn (fun h => hfree.1 h.1 h.2)
      have h2 := ih s1 hr hfree.2
      omega

theorem system_push_fail (s : system) (time dtype : Nat) (id : String) (data : List Nat)
    (hst : s.self._state ≠ state_t.Stopping)
    (hf : (s.self._buffer.push time dtype id data).2 = false) :
    s.push time dtype id data = { s with self := s.self.xrun, xruns := s.xruns + 1 } := by
  unfold system.push
  rw [push_fail_eq_xrun s.self time dtype id data hst hf]
  simp [hst, hf]

theorem pushes_fail (rs : List data_block_t) (s : system)
    (hst : s.self._state ≠ state_t.Stopping)
    (hf : ∀ r ∈ rs, (s.self._buffer.push r.time r.dtype r.id r.data).2 = false)
    (hne : rs ≠ []) :
    s.pushes rs = { s with self := s.self.xrun, xruns := s.xruns + rs.length } := by
  induction rs generalizing s with
  | nil => exact absurd rfl hne
  | cons r rest ih =>
    have h1 := system_push_fail s r.time r.dtype r.id r.data hst
      (hf r (List.mem_cons_self _ _))
    simp only [system.pushes, List.foldl_cons]
    rw [h1]
    cases rest with
    | nil => simp
    | cons r2 rest2 =>
      have h2 := ih { s with self := s.self.xrun, xruns := s.xruns + 1 }
        (by simpa [xrun_state] using hst)
        (fun x hx => by
          simpa [xrun_buffer] using hf x (List.mem_cons_of_mem _ hx))
        (by simp)
      simp only [system.pushes] at h2
      rw [h2]
      simp [xrun_idem]
      omega

/-- C3 as stated fails: two calls of `xrun()` while the engine is `Stopped`, or two
failing pushes while the consumer thread is in its start-up statements (state already
`Running`), leave the overrun flag set; the thread's start-up then clears the flag,
and the next consumer cycle ends with a flush and no call of the sink's xrun. -/
theorem overrun_lost_at_startup :
    (scenario.fresh.run [action.xrun, action.xrun]).map
        (fun s => (s.self._state, s.self._xrun)) = some (state_t.Stopped, true) ∧
    (scenario.fresh.run scenario.xrun_before_start).map
        (fun s => (s.self._xrun, s.sink, s.holder)) =
      some (false, [sink_call.flush], none) ∧
    (scenario.small.run
        [action.start 0, action.lock, action.step, scenario.push_of scenario.A,
          scenario.push_of scenario.B]).map
        (fun s => (s.self._state, s.self._xrun, s.self._buffer.blocks)) =
      some (state_t.Running, true, []) ∧
    (scenario.small.run scenario.pushes_during_startup).map
        (fun s => (s.self._xrun, s.sink, s.holder)) =
      some (false, [sink_call.flush], none) := by
  decide

/-- C3, amended (overrun is signalled and reported once): in a state other than
`Stopping`, any non-empty sequence of pushes that fail for lack of space, and any
k >= 1 calls of `xrun()`, leave the engine exactly as one call of `xrun()` does: ring
buffer unchanged, overrun flag true, no sink call.  However the run continues from
there, as long as no consumer thread executes its start-up statement that clears the
flag, the signal is neither lost nor repeated: the number of sink xrun calls made
since, plus one if the flag is still pending, is at least one and at most one plus
the number of calls of `xrun()` made meanwhile.  The report itself is made by the
check at the head of the loop, which calls the sink's xrun once and clears the
flag. -/
theorem overrun_reported_once (s s' : system) (rs : List data_block_t) (k : Nat)
    (acts : List action)
    (hne : rs ≠ []) (hk : 1 ≤ k) (hst : s.self._state ≠ state_t.Stopping)
    (hf : ∀ r ∈ rs, (s.self._buffer.push r.time r.dtype r.id r.data).2 = false)
    (hr : (s.pushes rs).run acts = some s')
    (hfree : (s.pushes rs).no_startup_clear acts = true) :
    ((s.pushes rs).self = s.self.xrun ∧
      (∀ r ∈ rs, s.self.push r.time r.dtype r.id r.data = s.self.xrun) ∧
      buffered_data_writer.xrun^[k] s.self = s.self.xrun ∧
      s.self.xrun._buffer = s.self._buffer ∧ s.self.xrun._xrun = true ∧
      (s.pushes rs).sink = s.sink ∧ (s.pushes rs).pushed = s.pushed ∧
      (s.pushes rs).holder = s.holder) ∧
    (xrun_calls s.sink + 1 ≤ xrun_calls s'.sink + s'.self._xrun.toNat ∧
      xrun_calls s'.sink + s'.self._xrun.toNat + (s.pushes rs).xruns ≤
        xrun_calls s.sink + 1 + s'.xruns) ∧
    (∀ t : system, t.self._xrun = true →
      (t.thread pc_t.check_xrun).sink = t.sink ++ [sink_call.xrun] ∧
      (t.thread pc_t.check_xrun).self._xrun = false) := by
  have hp := pushes_fail rs s hst hf hne
  refine ⟨⟨by rw [hp], ?_, ?_, xrun_buffer s.self, xrun_xrun s.self, by rw [hp],
    by rw [hp], by rw [hp]⟩, ⟨?_, ?_⟩, ?_⟩
  · intro r hr
    exact push_fail_eq_xrun s.self _ _ _ _ hst (hf r hr)
  · obtain ⟨j, rfl⟩ : ∃ j, k = j + 1 := ⟨k - 1, by omega⟩
    exact xrun_iterate s.self j
  · have h := signal_kept_run acts _ s' hr hfree
    rw [hp] at h
    simpa [xrun_xrun] using h
  · have h := xrun_budget_run acts _ s' hr
    rw [hp] at h ⊢
    simpa [xrun_xrun] using h
  · intro t ht
    simp [system.thread, ht]

/-- Witness for C3 (amended): with the buffer full and the consumer at the head of
its loop, two failing pushes of `E`; the consumer then reports the overrun and writes
one record. -/
theorem overrun_reported_once_witness :
    (scenario.full.pushes [scenario.E, scenario.E]).self = scenario.full.self.xrun ∧
    (xrun_calls scenario.full.sink + 1 ≤
        xrun_calls (scenario.after (scenario.full.pushes [scenario.E, scenario.E])
          scenario.write_cycle).sink +
        (scenario.after (scenario.full.pushes [scenario.E, scenario.E])
          scenario.write_cycle).self._xrun.toNat ∧
      xrun_calls (scenario.after (scenario.full.pushes [scenario.E, scenario.E])
          scenario.write_cycle).sink +
        (scenario.after (scenario.full.pushes [scenario.E, scenario.E])
          scenario.write_cycle).self._xrun.toNat +
        (scenario.full.pushes [scenario.E, scenario.E]).xruns ≤
      xrun_calls scenario.full.sink + 1 +
        (scenario.after (scenario.full.pushes [scenario.E, scenario.E])
          scenario.write_cycle).xruns) ∧
    (scenario.after (scenario.full.pushes [scenario.E, scenario.E])
      scenario.write_cycle).sink = [sink_call.xrun, sink_call.write scenario.A] :=
  ⟨(overrun_reported_once scenario.full
      (scenario.after (scenario.full.pushes [scenario.E, scenario.E]) scenario.write_cycle)
      [scenario.E, scenario.E] 2 scenario.write_cycle
      (by decide) (by decide) (by decide) (by decide) (by decide) (by decide)).1.1,
   (overrun_reported_once scenario.full
      (scenario.after (scenario.full.pushes [scenario.E, scenario.E]) scenario.write_cycle)
      [scenario.E, scenario.E] 2 scenario.write_cycle
      (by decide) (by decide) (by decide) (by decide) (by decide) (by decide)).2.1,
   by decide⟩

/-- C20 (loop exit), evaluated at the failing interleaving: the consumer peeks an empty
buffer, the producer pushes `A` while the state is still `Running`, and `stop()` is
called.  When the consumer arrives at the state test of that cycle the ring buffer
holds `A` and the state is `Stopping`; the test leaves the loop with `A` still in the
buffer, and the thread then calls close_entry as its only sink call and releases the
lock, after which the state is set to `Stopped`.  The loop has exited in a cycle in
which the ring buffer was not empty. -/
theorem exit_with_unread_record :
    (scenario.fresh.run scenario.exit_race).map
        (fun s => (s.holder, s.self._state, s.self._buffer.blocks, s.sink)) =
      some (some pc_t.check_state, state_t.Stopping, [scenario.A], []) ∧
    (scenario.fresh.run (scenario.exit_race ++ [action.step])).map
        (fun s => (s.holder, s.self._state, s.self._buffer.blocks, s.sink)) =
      some (some pc_t.close, state_t.Stopping, [scenario.A], []) ∧
    (scenario.fresh.run (scenario.exit_race ++ [action.step, action.step, action.step])).map
        (fun s => (s.holder, s.exiting, s.self._buffer.blocks, s.sink)) =
      some (none, 1, [scenario.A], [sink_call.close_entry]) ∧
    (scenario.fresh.run (scenario.exit_race ++
        [action.step, action.step, action.step, action.store_stopped])).map
        (fun s => (s.self._state, s.self._buffer.blocks, s.sink)) =
      some (state_t.Stopped, [scenario.A], [sink_call.close_entry]) := by
  refine ⟨?_, ?_, ?_, ?_⟩ <;> decide

end jill
